import Mathlib

/-!
# GeoWear core analysis — shallow embedding and verification

This file embeds the core analysis routines of the GeoWear wear-analysis
pipeline (a TypeScript program) into Lean 4 and proves or refutes the frozen
specification claims about them.

Modelling conventions:
* JavaScript `number` values that the program uses exactly (coordinates,
  heights, deviations, thresholds) are modelled as `ℚ`; quantities that are
  genuinely irrational (square roots, π, arccos) are modelled in `ℝ`.
* `Math.sqrt(x) <= eps` comparisons are embedded as
  `0 ≤ eps ∧ x ≤ eps^2`, which is equivalent for every real `eps` because
  `Math.sqrt` of a non-negative radicand is non-negative and monotone.
* IEEE `Infinity` initialisations are modelled with `WithTop ℚ` / `WithBot ℚ`.
* Out-of-bounds typed-array reads (JS `undefined`) are modelled with
  `Option`/`getD`; comparisons against `undefined`, which are always false in
  JS, are modelled by matching on `Option` and returning `false` on `none`.
* Code that throws is modelled with `Except`.
-/

namespace GeoWear

/-- Exact 3-component vector standing for the interleaved xyz floats of the
source (`positions`/`normals` buffers, `THREE.Vector3` values). -/
structure Vec3 where
  x : ℚ
  y : ℚ
  z : ℚ
deriving DecidableEq, Repr

def v3zero : Vec3 := ⟨0, 0, 0⟩

def Vec3.add (a b : Vec3) : Vec3 := ⟨a.x + b.x, a.y + b.y, a.z + b.z⟩

def Vec3.sub (a b : Vec3) : Vec3 := ⟨a.x - b.x, a.y - b.y, a.z - b.z⟩

def Vec3.dot (a b : Vec3) : ℚ := a.x * b.x + a.y * b.y + a.z * b.z

def Vec3.smul (q : ℚ) (a : Vec3) : Vec3 := ⟨q * a.x, q * a.y, q * a.z⟩

/-- Squared Euclidean norm, `|a|²`. -/
def Vec3.normSq (a : Vec3) : ℚ := a.dot a

/-- Squared Euclidean distance between two points.  The source computes
`Math.sqrt (sqDist a b)`; we keep the radicand exact and apply `Real.sqrt`
only where the (irrational) root itself is stored. -/
def sqDist (a b : Vec3) : ℚ := (a.sub b).normSq

theorem sqDist_comm (a b : Vec3) : sqDist a b = sqDist b a := by
  simp only [sqDist, Vec3.sub, Vec3.normSq, Vec3.dot]
  ring

theorem sqDist_nonneg (a b : Vec3) : 0 ≤ sqDist a b := by
  simp only [sqDist, Vec3.sub, Vec3.normSq, Vec3.dot]
  have h1 := mul_self_nonneg (a.x - b.x)
  have h2 := mul_self_nonneg (a.y - b.y)
  have h3 := mul_self_nonneg (a.z - b.z)
  linarith

/-- `MeshData` of `types.ts`: interleaved `positions`/`normals` buffers
(one `Vec3` per vertex), flat triangle `indices`, and the stored
`vertexCount`/`faceCount` fields (kept separate from the list lengths, as in
the source, where they are independent record fields). -/
structure MeshData where
  positions : List Vec3
  normals : List Vec3
  indices : List Nat
  vertexCount : Nat
  faceCount : Nat
deriving DecidableEq, Repr

/-- The documented invariant of `MeshData`: buffer sizes agree with the
stored counts and every triangle index is in range. -/
def MeshData.Wf (m : MeshData) : Prop :=
  m.positions.length = m.vertexCount ∧
  m.normals.length = m.vertexCount ∧
  m.indices.length = 3 * m.faceCount ∧
  ∀ i ∈ m.indices, i < m.vertexCount

instance (m : MeshData) : Decidable m.Wf := by
  unfold MeshData.Wf
  infer_instance

/-- Position of vertex `i` (`positions[i*3..i*3+2]`); out-of-range reads give
the JS `undefined`, which we only ever use under well-formedness. -/
def MeshData.posAt (m : MeshData) (i : Nat) : Vec3 := m.positions.getD i v3zero

/-- Flat index `indices[3*f + k]` of corner `k` (0,1,2) of face `f`. -/
def MeshData.faceIdx (m : MeshData) (f k : Nat) : Nat := m.indices.getD (3 * f + k) 0

/-! ## RimTrimmer (`MeshProcessor.ts`, `trimRim`) -/

/-- Mesh centroid as computed by `trimRim`: coordinate sums over the whole
`positions` buffer divided by the stored `vertexCount` (source lines
388-397). -/
def meshCentroid (m : MeshData) : Vec3 :=
  Vec3.smul (1 / (m.vertexCount : ℚ)) (m.positions.foldl Vec3.add v3zero)

/-- Per-vertex heights: projection of each vertex (relative to the centroid)
onto the cup axis (source lines 399-411). -/
def trimHeights (m : MeshData) (axis : Vec3) : List ℚ :=
  (List.range m.vertexCount).map
    (fun i => Vec3.dot ((m.posAt i).sub (meshCentroid m)) axis)

/-- `heightsSorted`: the heights sorted ascending (source line 419).  For a
linear order on values, every comparison-correct sort returns the same list,
so insertion sort here is extensionally the source's `Array.sort`. -/
def trimHeightsSorted (m : MeshData) (axis : Vec3) : List ℚ :=
  (trimHeights m axis).insertionSort (fun a b => a ≤ b)

/-- `Math.max(0, trimIdx - 1)` with `trimIdx = Math.ceil((percent/100)*len)`
(source lines 420-421). -/
def trimThresholdIdx (len : Nat) (percent : ℚ) : Nat :=
  (max 0 (Int.ceil (percent / 100 * (len : ℚ)) - 1)).toNat

/-- The percentile height threshold `heightsSorted[...]`; `none` models the
JS `undefined` read when the index is past the end. -/
def trimThreshold (m : MeshData) (axis : Vec3) (percent : ℚ) : Option ℚ :=
  (trimHeightsSorted m axis).get?
    (trimThresholdIdx (trimHeightsSorted m axis).length percent)

/-- `heights[indices[3*f+k]]` as an optional value (JS `undefined` on any
out-of-range read). -/
def faceHeight? (m : MeshData) (axis : Vec3) (f k : Nat) : Option ℚ := do
  let i ← m.indices.get? (3 * f + k)
  (trimHeights m axis).get? i

/-- The face filter of source lines 427-436: keep a face only when all three
vertex heights are strictly above the threshold.  Comparisons involving a JS
`undefined` are false. -/
def faceKept (m : MeshData) (axis : Vec3) (percent : ℚ) (f : Nat) : Bool :=
  match trimThreshold m axis percent, faceHeight? m axis f 0,
      faceHeight? m axis f 1, faceHeight? m axis f 2 with
  | some t, some h0, some h1, some h2 =>
      decide (t < h0) && decide (t < h1) && decide (t < h2)
  | _, _, _, _ => false

/-- `keptFaces` (source lines 425-436). -/
def keptFaces (m : MeshData) (axis : Vec3) (percent : ℚ) : List Nat :=
  (List.range m.faceCount).filter (fun f => faceKept m axis percent f)

/-- `removedFaces`: every face not in the kept set (source lines 438-443). -/
def removedFaces (m : MeshData) (axis : Vec3) (percent : ℚ) : List Nat :=
  (List.range m.faceCount).filter (fun f => !(faceKept m axis percent f))

/-- State of the vertex-welding rebuild loops (source lines 445-503): the
old→new vertex map, the new buffers, and the running new-vertex counter. -/
structure WeldSt where
  vmap : List (Nat × Nat)
  newPos : List Vec3
  newNorm : List Vec3
  newIdx : List Nat
  count : Nat

/-- `vertexMap.get(oldIdx)` over the association list. -/
def weldLookup (l : List (Nat × Nat)) (k : Nat) : Option Nat :=
  (l.find? (fun e => decide (e.fst = k))).map Prod.snd

/-- Process one referenced old vertex: reuse its welded index or append a
fresh vertex copying its position and normal. -/
def weldVertex (m : MeshData) (st : WeldSt) (oldIdx : Nat) : WeldSt :=
  match weldLookup st.vmap oldIdx with
  | some j => { st with newIdx := st.newIdx ++ [j] }
  | none =>
      { vmap := st.vmap ++ [(oldIdx, st.count)],
        newPos := st.newPos ++ [m.positions.getD oldIdx v3zero],
        newNorm := st.newNorm ++ [m.normals.getD oldIdx v3zero],
        newIdx := st.newIdx ++ [st.count],
        count := st.count + 1 }

/-- Process the three corners of face `f` in order. -/
def weldFace (m : MeshData) (st : WeldSt) (f : Nat) : WeldSt :=
  weldVertex m (weldVertex m (weldVertex m st (m.faceIdx f 0)) (m.faceIdx f 1))
    (m.faceIdx f 2)

/-- Rebuild a compact sub-mesh from a face list with vertex welding (the
rebuild loops of `trimRim`, also `buildMeshFromFaces` of `separateFaces`). -/
def buildSubMesh (m : MeshData) (faces : List Nat) : MeshData :=
  let st := faces.foldl (weldFace m) ⟨[], [], [], [], 0⟩
  { positions := st.newPos, normals := st.newNorm, indices := st.newIdx,
    vertexCount := st.count, faceCount := faces.length }

/-- `TrimResult` of `types.ts`; the `heightRange` pair keeps the source's
`Infinity`/`-Infinity` fold initialisations. -/
structure TrimResult where
  mesh : MeshData
  rimMesh : MeshData
  rimPercentRemoved : ℚ
  heightRangeLo : WithTop ℚ
  heightRangeHi : WithBot ℚ

/-- `trimRim(meshData, cupAxis, percent)` (MeshProcessor.ts lines 383-523). -/
def trimRim (m : MeshData) (cupAxis : Vec3) (percent : ℚ) : TrimResult :=
  { mesh := buildSubMesh m (keptFaces m cupAxis percent),
    rimMesh := buildSubMesh m (removedFaces m cupAxis percent),
    rimPercentRemoved := percent,
    heightRangeLo :=
      (trimHeights m cupAxis).foldl (fun a h => min a (h : WithTop ℚ)) ⊤,
    heightRangeHi :=
      (trimHeights m cupAxis).foldl (fun a h => max a (h : WithBot ℚ)) ⊥ }

/-- Concrete single-triangle mesh whose three vertices have distinct heights
along the z axis. -/
def trimCexMesh : MeshData :=
  { positions := [⟨0, 0, 0⟩, ⟨0, 0, 1⟩, ⟨1, 0, 2⟩],
    normals := [⟨0, 1, 0⟩, ⟨0, 1, 0⟩, ⟨0, 1, 0⟩],
    indices := [0, 1, 2],
    vertexCount := 3,
    faceCount := 1 }

def trimCexAxis : Vec3 := ⟨0, 0, 1⟩

/-! ### Lemmas about `trimRim` -/

theorem length_trimHeights (m : MeshData) (axis : Vec3) :
    (trimHeights m axis).length = m.vertexCount := by
  simp [trimHeights]

theorem length_trimHeightsSorted (m : MeshData) (axis : Vec3) :
    (trimHeightsSorted m axis).length = m.vertexCount := by
  rw [trimHeightsSorted, (List.perm_insertionSort _ _).length_eq, length_trimHeights]

theorem trimThresholdIdx_zero (len : Nat) : trimThresholdIdx len 0 = 0 := by
  simp [trimThresholdIdx]

/-- A sorted list's head is a lower bound for its members. -/
theorem sorted_head_le {a : ℚ} {t : List ℚ} (hs : (a :: t).Sorted (· ≤ ·)) :
    ∀ x ∈ a :: t, a ≤ x := by
  intro x hx
  rcases List.mem_cons.mp hx with h | h
  · exact le_of_eq h.symm
  · exact List.rel_of_sorted_cons hs x h

/-- At `percent = 0` the threshold is exactly the minimum of the heights. -/
theorem trimThreshold_zero (m : MeshData) (axis : Vec3) (hv : 0 < m.vertexCount) :
    ∃ hmin, trimThreshold m axis 0 = some hmin ∧
      hmin ∈ trimHeights m axis ∧ ∀ h ∈ trimHeights m axis, hmin ≤ h := by
  have hlen : (trimHeightsSorted m axis).length = m.vertexCount :=
    length_trimHeightsSorted m axis
  obtain ⟨a, t, hat⟩ : ∃ a t, trimHeightsSorted m axis = a :: t := by
    cases hs : trimHeightsSorted m axis with
    | nil => rw [hs] at hlen; simp at hlen; omega
    | cons a t => exact ⟨a, t, rfl⟩
  have hperm : (trimHeightsSorted m axis).Perm (trimHeights m axis) :=
    List.perm_insertionSort _ _
  have hsorted : (trimHeightsSorted m axis).Sorted (· ≤ ·) :=
    List.sorted_insertionSort _ _
  refine ⟨a, ?_, ?_, ?_⟩
  · rw [trimThreshold, trimThresholdIdx_zero, hat]
    rfl
  · exact hperm.mem_iff.mp (by rw [hat]; exact List.mem_cons_self a t)
  · intro h hh
    have : h ∈ a :: t := by rw [← hat]; exact hperm.mem_iff.mpr hh
    exact sorted_head_le (hat ▸ hsorted) h this

/-- Total variant of `faceHeight?`, meaningful for in-range faces of a
well-formed mesh. -/
def faceHeightD (m : MeshData) (axis : Vec3) (f k : Nat) : ℚ :=
  (trimHeights m axis).getD (m.faceIdx f k) 0

theorem faceHeight?_eq (m : MeshData) (axis : Vec3) (hwf : m.Wf)
    {f : Nat} (hf : f < m.faceCount) (k : Nat) (hk : k < 3) :
    faceHeight? m axis f k = some (faceHeightD m axis f k) := by
  obtain ⟨hp, hn, hi, hr⟩ := hwf
  have hidx : 3 * f + k < m.indices.length := by omega
  have h1 : m.indices.get? (3 * f + k) = some (m.indices.getD (3 * f + k) 0) := by
    rw [List.getD_eq_getElem?_getD, List.get?_eq_getElem?,
      List.getElem?_eq_getElem hidx]
    rfl
  have hmem : m.indices.getD (3 * f + k) 0 ∈ m.indices := by
    rw [List.getD_eq_getElem?_getD, List.getElem?_eq_getElem hidx]
    exact List.getElem_mem hidx
  have hlt : m.indices.getD (3 * f + k) 0 < m.vertexCount := hr _ hmem
  have hlen : m.faceIdx f k < (trimHeights m axis).length := by
    rw [length_trimHeights]; exact hlt
  rw [faceHeight?, h1]
  show (trimHeights m axis).get? (m.faceIdx f k) = _
  rw [List.get?_eq_getElem?, List.getElem?_eq_getElem hlen, faceHeightD,
    List.getD_eq_getElem?_getD, List.getElem?_eq_getElem hlen]
  rfl

/-- Membership characterisation of the kept-face filter under a known
threshold value. -/
theorem mem_keptFaces_iff (m : MeshData) (axis : Vec3) (hwf : m.Wf)
    {tval : ℚ} (ht : trimThreshold m axis 0 = some tval)
    {f : Nat} (hf : f < m.faceCount) :
    f ∈ keptFaces m axis 0 ↔
      tval < faceHeightD m axis f 0 ∧ tval < faceHeightD m axis f 1 ∧
        tval < faceHeightD m axis f 2 := by
  have h0 := faceHeight?_eq m axis hwf hf 0 (by omega)
  have h1 := faceHeight?_eq m axis hwf hf 1 (by omega)
  have h2 := faceHeight?_eq m axis hwf hf 2 (by omega)
  rw [keptFaces, List.mem_filter, List.mem_range]
  constructor
  · rintro ⟨-, hkept⟩
    rw [faceKept, ht, h0, h1, h2] at hkept
    simp only [Bool.and_eq_true, decide_eq_true_eq] at hkept
    exact ⟨hkept.1.1, hkept.1.2, hkept.2⟩
  · rintro ⟨ha, hb, hc⟩
    refine ⟨hf, ?_⟩
    rw [faceKept, ht, h0, h1, h2]
    simp only [Bool.and_eq_true, decide_eq_true_eq]
    exact ⟨⟨ha, hb⟩, hc⟩

/-- Counting helper: a filter and its complement partition a list. -/
theorem length_filter_add_length_filter_not {α : Type} (l : List α) (p : α → Bool) :
    (l.filter p).length + (l.filter (fun a => !(p a))).length = l.length := by
  induction l with
  | nil => rfl
  | cons a t ih =>
      by_cases h : p a = true
      · simp [List.filter_cons, h, ih]
        omega
      · simp only [List.filter_cons, h, Bool.not_eq_true] at *
        simp [h, ih]
        omega

/-- Fold invariant for the welding rebuild: buffers have length `count` and
every welded vertex copies the position and the normal of a single input
vertex. -/
def WeldInv (m : MeshData) (st : WeldSt) : Prop :=
  st.newPos.length = st.count ∧ st.newNorm.length = st.count ∧
  ∀ j < st.count, ∃ i < m.vertexCount,
    st.newPos.getD j v3zero = m.positions.getD i v3zero ∧
    st.newNorm.getD j v3zero = m.normals.getD i v3zero

theorem weldVertex_inv (m : MeshData) (st : WeldSt) {oldIdx : Nat}
    (ho : oldIdx < m.vertexCount) (hst : WeldInv m st) :
    WeldInv m (weldVertex m st oldIdx) := by
  obtain ⟨hp, hn, hcopy⟩ := hst
  rw [weldVertex]
  cases weldLookup st.vmap oldIdx with
  | some j => exact ⟨hp, hn, hcopy⟩
  | none =>
      dsimp only
      refine ⟨by simp [hp], by simp [hn], ?_⟩
      intro j hj
      dsimp only at hj
      rcases Nat.lt_or_ge j st.count with hlt | hge
      · obtain ⟨i, hi, hpi, hni⟩ := hcopy j hlt
        refine ⟨i, hi, ?_, ?_⟩
        · rw [← hpi, List.getD_append _ _ _ _ (by omega)]
        · rw [← hni, List.getD_append _ _ _ _ (by omega)]
      · have hj' : j = st.count := by omega
        subst hj'
        refine ⟨oldIdx, ho, ?_, ?_⟩
        · rw [List.getD_eq_getElem?_getD, List.getElem?_append_right (by omega),
            hp, Nat.sub_self]
          rfl
        · rw [List.getD_eq_getElem?_getD, List.getElem?_append_right (by omega),
            hn, Nat.sub_self]
          rfl

theorem weldFace_inv (m : MeshData) (hwf : m.Wf) (st : WeldSt) {f : Nat}
    (hf : f < m.faceCount) (hst : WeldInv m st) :
    WeldInv m (weldFace m st f) := by
  obtain ⟨hp, hn, hi, hr⟩ := hwf
  have hidx : ∀ k, k < 3 → m.faceIdx f k < m.vertexCount := by
    intro k hk
    have hlen : 3 * f + k < m.indices.length := by omega
    have hmem : m.indices.getD (3 * f + k) 0 ∈ m.indices := by
      rw [List.getD_eq_getElem?_getD, List.getElem?_eq_getElem hlen]
      exact List.getElem_mem hlen
    exact hr _ hmem
  exact weldVertex_inv m _ (hidx 2 (by omega))
    (weldVertex_inv m _ (hidx 1 (by omega))
      (weldVertex_inv m _ (hidx 0 (by omega)) hst))

theorem buildSubMesh_copies (m : MeshData) (hwf : m.Wf) (faces : List Nat)
    (hfaces : ∀ f ∈ faces, f < m.faceCount) :
    ∀ j < (buildSubMesh m faces).vertexCount, ∃ i < m.vertexCount,
      (buildSubMesh m faces).positions.getD j v3zero = m.positions.getD i v3zero ∧
      (buildSubMesh m faces).normals.getD j v3zero = m.normals.getD i v3zero := by
  have key : ∀ (fs : List Nat) (st : WeldSt), (∀ f ∈ fs, f < m.faceCount) →
      WeldInv m st → WeldInv m (fs.foldl (weldFace m) st) := by
    intro fs
    induction fs with
    | nil => intro st _ hst; exact hst
    | cons f t ih =>
        intro st hall hst
        exact ih _ (fun g hg => hall g (List.mem_cons_of_mem f hg))
          (weldFace_inv m hwf st (hall f (List.mem_cons_self f t)) hst)
  have hinv : WeldInv m (faces.foldl (weldFace m) ⟨[], [], [], [], 0⟩) :=
    key faces _ hfaces ⟨rfl, rfl, fun j hj => absurd hj (Nat.not_lt_zero j)⟩
  exact hinv.2.2

/-! ### C10 — `trimRim` partitions the faces and copies vertex data -/

/-- **C10.** `trimRim` places every input triangle in exactly one of the two
output meshes, the two face counts sum to the input face count, and every
vertex position/normal of either output is a copy of the position/normal of
a single input vertex. -/
theorem trimRim_partition_of_faces (m : MeshData) (axis : Vec3) (percent : ℚ)
    (hwf : m.Wf) :
    ((trimRim m axis percent).mesh.faceCount +
        (trimRim m axis percent).rimMesh.faceCount = m.faceCount) ∧
    (∀ f < m.faceCount,
      (f ∈ keptFaces m axis percent ↔ f ∉ removedFaces m axis percent)) ∧
    (∀ j < (trimRim m axis percent).mesh.vertexCount, ∃ i < m.vertexCount,
      (trimRim m axis percent).mesh.positions.getD j v3zero =
        m.positions.getD i v3zero ∧
      (trimRim m axis percent).mesh.normals.getD j v3zero =
        m.normals.getD i v3zero) ∧
    (∀ j < (trimRim m axis percent).rimMesh.vertexCount, ∃ i < m.vertexCount,
      (trimRim m axis percent).rimMesh.positions.getD j v3zero =
        m.positions.getD i v3zero ∧
      (trimRim m axis percent).rimMesh.normals.getD j v3zero =
        m.normals.getD i v3zero) := by
  refine ⟨?_, ?_, ?_, ?_⟩
  · show (keptFaces m axis percent).length + (removedFaces m axis percent).length
      = m.faceCount
    rw [keptFaces, removedFaces,
      length_filter_add_length_filter_not (List.range m.faceCount) _,
      List.length_range]
  · intro f hf
    rw [keptFaces, removedFaces, List.mem_filter, List.mem_filter, List.mem_range]
    by_cases h : faceKept m axis percent f = true
    · simp [h, hf]
    · simp [h, hf]
  · exact buildSubMesh_copies m hwf _
      (fun f hfm => List.mem_range.mp (List.mem_of_mem_filter hfm))
  · exact buildSubMesh_copies m hwf _
      (fun f hfm => List.mem_range.mp (List.mem_of_mem_filter hfm))

/-! ### C1 — `trimRim` at `percent = 0` -/

/-- **C1, counterexample.**  On a well-formed single-triangle mesh,
`trimRim` with `percent = 0` does **not** return the full mesh: the
threshold equals the minimum height, the strict `>` comparison fails at the
minimum-height vertex, and the only triangle is discarded into the rim
mesh. -/
theorem trimRim_percent0_not_identity :
    trimCexMesh.Wf ∧
    (trimRim trimCexMesh trimCexAxis 0).mesh.faceCount = 0 ∧
    (trimRim trimCexMesh trimCexAxis 0).rimMesh.faceCount = 1 ∧
    trimCexMesh.faceCount = 1 := by
  with_unfolding_all exact of_decide_eq_true rfl

/-- **C1, amended.**  With `percent = 0` the percentile threshold is the
minimum vertex height, and the trimmed mesh keeps exactly the faces whose
three vertex heights are strictly above that minimum; faces touching a
minimum-height vertex are discarded (so the mesh is generally *not*
returned unchanged). -/
theorem trimRim_percent0_keeps_above_min (m : MeshData) (axis : Vec3)
    (hwf : m.Wf) (hv : 0 < m.vertexCount) :
    ∃ hmin, trimThreshold m axis 0 = some hmin ∧
      hmin ∈ trimHeights m axis ∧
      (∀ h ∈ trimHeights m axis, hmin ≤ h) ∧
      (trimRim m axis 0).mesh.faceCount = (keptFaces m axis 0).length ∧
      ∀ f < m.faceCount,
        (f ∈ keptFaces m axis 0 ↔
          hmin < faceHeightD m axis f 0 ∧ hmin < faceHeightD m axis f 1 ∧
            hmin < faceHeightD m axis f 2) := by
  obtain ⟨hmin, ht, hmem, hle⟩ := trimThreshold_zero m axis hv
  exact ⟨hmin, ht, hmem, hle, rfl,
    fun f hf => mem_keptFaces_iff m axis hwf ht hf⟩

/-- Witness instantiating `trimRim_percent0_keeps_above_min` at the concrete
single-triangle mesh. -/
theorem trimRim_percent0_keeps_above_min_witness :
    trimCexMesh.Wf ∧ 0 < trimCexMesh.vertexCount ∧
    ∃ hmin, trimThreshold trimCexMesh trimCexAxis 0 = some hmin ∧
      hmin ∈ trimHeights trimCexMesh trimCexAxis ∧
      (∀ h ∈ trimHeights trimCexMesh trimCexAxis, hmin ≤ h) ∧
      (trimRim trimCexMesh trimCexAxis 0).mesh.faceCount =
        (keptFaces trimCexMesh trimCexAxis 0).length ∧
      ∀ f < trimCexMesh.faceCount,
        (f ∈ keptFaces trimCexMesh trimCexAxis 0 ↔
          hmin < faceHeightD trimCexMesh trimCexAxis f 0 ∧
            hmin < faceHeightD trimCexMesh trimCexAxis f 1 ∧
            hmin < faceHeightD trimCexMesh trimCexAxis f 2) := by
  have hwf : trimCexMesh.Wf := by with_unfolding_all exact of_decide_eq_true rfl
  have hv : 0 < trimCexMesh.vertexCount := by
    with_unfolding_all exact of_decide_eq_true rfl
  exact ⟨hwf, hv, trimRim_percent0_keeps_above_min trimCexMesh trimCexAxis hwf hv⟩

/-- Witness instantiating `trimRim_partition_of_faces` at the concrete
single-triangle mesh. -/
theorem trimRim_partition_of_faces_witness :
    trimCexMesh.Wf ∧
    ((trimRim trimCexMesh trimCexAxis 0).mesh.faceCount +
        (trimRim trimCexMesh trimCexAxis 0).rimMesh.faceCount =
      trimCexMesh.faceCount) := by
  have hwf : trimCexMesh.Wf := by with_unfolding_all exact of_decide_eq_true rfl
  exact ⟨hwf, (trimRim_partition_of_faces trimCexMesh trimCexAxis 0 hwf).1⟩

/-! ## GeodesicSolver — meridian extraction (`computeGeodesics`, lines 183-281)

The per-slice work of `computeGeodesics` takes the slice's `bandVertices`
(vertex index and finite geodesic distance from the pole), sorts them by
distance, and walks them with a fixed stride
`step = Math.max(1, Math.floor(bandVertices.length / 500))`, pushing one
`GeodesicPoint` per visited index.  The angular-band selection that produces
`bandVertices` uses `atan2` and is not needed for the point-count claim,
which depends only on the band handed to this loop. -/

/-- One entry of `bandVertices`: `{ idx, dist }`. -/
structure BandVertex where
  idx : Nat
  dist : ℚ
deriving DecidableEq, Repr

/-- `const step = Math.max(1, Math.floor(bandVertices.length / maxPoints))`
with `maxPoints = 500` (source lines 205-206). -/
def meridianStride (n : Nat) : Nat := max 1 (n / 500)

/-- The indices visited by `for (let i = 0; i < n; i += step)`: exactly the
multiples of `step` below `n`, in increasing order. -/
def sampleIndices (n step : Nat) : List Nat :=
  (List.range n).filter (fun i => i % step = 0)

/-- A sampled point of a meridian (`GeodesicPoint` of `types.ts`).
`deviation` is irrational in general (`Math.sqrt`), so it lives in `ℝ`. -/
structure GeodesicPoint where
  vertexIndex : Nat
  position : Vec3
  arcLength : ℚ
  deviation : ℝ
  derivative : ℝ
  secondDerivative : ℝ

noncomputable def gpDefault : GeodesicPoint := ⟨0, v3zero, 0, 0, 0, 0⟩

/-- The sampling loop of source lines 208-235: sort the band by distance,
then push one point per strided index, with
`deviation = (‖p − center‖ − avgRadius) · 1000`. -/
noncomputable def meridianSample (positions : List Vec3) (center : Vec3)
    (avgRadius : ℝ) (band : List BandVertex) : List GeodesicPoint :=
  let sorted := band.insertionSort (fun a b => a.dist ≤ b.dist)
  (sampleIndices sorted.length (meridianStride sorted.length)).map (fun i =>
    let bv := sorted.getD i ⟨0, 0⟩
    let p := positions.getD bv.idx v3zero
    { vertexIndex := bv.idx, position := p, arcLength := bv.dist,
      deviation := (Real.sqrt ((sqDist p center : ℚ) : ℝ) - avgRadius) * 1000,
      derivative := 0, secondDerivative := 0 })

/-- Central-difference first-derivative pass (source lines 237-243); writes
indices `1 .. n-2`, reading only deviations and arc lengths. -/
noncomputable def derivPass (pts : List GeodesicPoint) : List GeodesicPoint :=
  pts.mapIdx (fun i p =>
    if 1 ≤ i ∧ i + 1 < pts.length then
      let ds : ℚ := (pts.getD (i + 1) gpDefault).arcLength -
        (pts.getD (i - 1) gpDefault).arcLength
      if 1 / 1000000000000 < ds then
        { p with derivative :=
            ((pts.getD (i + 1) gpDefault).deviation -
              (pts.getD (i - 1) gpDefault).deviation) / (ds : ℝ) }
      else p
    else p)

/-- Forward/backward endpoint differences (source lines 245-255). -/
noncomputable def endpointPass (pts : List GeodesicPoint) : List GeodesicPoint :=
  if 2 ≤ pts.length then
    pts.mapIdx (fun i p =>
      if i = 0 then
        let ds : ℚ := (pts.getD 1 gpDefault).arcLength -
          (pts.getD 0 gpDefault).arcLength
        if 1 / 1000000000000 < ds then
          { p with derivative :=
              ((pts.getD 1 gpDefault).deviation -
                (pts.getD 0 gpDefault).deviation) / (ds : ℝ) }
        else p
      else if i + 1 = pts.length then
        let ds : ℚ := (pts.getD (pts.length - 1) gpDefault).arcLength -
          (pts.getD (pts.length - 2) gpDefault).arcLength
        if 1 / 1000000000000 < ds then
          { p with derivative :=
              ((pts.getD (pts.length - 1) gpDefault).deviation -
                (pts.getD (pts.length - 2) gpDefault).deviation) / (ds : ℝ) }
        else p
      else p)
  else pts

/-- Second-derivative pass (source lines 257-264), reading the
first-derivative values produced by the previous two passes. -/
noncomputable def secondDerivPass (pts : List GeodesicPoint) : List GeodesicPoint :=
  pts.mapIdx (fun i p =>
    if 1 ≤ i ∧ i + 1 < pts.length then
      let ds : ℚ := (pts.getD (i + 1) gpDefault).arcLength -
        (pts.getD (i - 1) gpDefault).arcLength
      if 1 / 1000000000000 < ds then
        { p with secondDerivative :=
            ((pts.getD (i + 1) gpDefault).derivative -
              (pts.getD (i - 1) gpDefault).derivative) / (ds : ℝ) }
      else p
    else p)

/-- The final `points` array of one meridian. -/
noncomputable def meridianPoints (positions : List Vec3) (center : Vec3)
    (avgRadius : ℝ) (band : List BandVertex) : List GeodesicPoint :=
  secondDerivPass (endpointPass (derivPass
    (meridianSample positions center avgRadius band)))

/-- One meridian record (`Geodesic` of `types.ts`); `maxDeviation` and
`minDeviation` keep the `±Infinity` fold initialisations of the source. -/
structure Geodesic where
  angle : ℚ
  points : List GeodesicPoint
  totalLength : ℚ
  maxDeviation : WithBot ℝ
  minDeviation : WithTop ℝ
  anomalyCount : Nat

open Classical in
/-- Assemble the meridian for one angular slice (source lines 266-276).  The
anomaly count screens `|deviation| > 1` µm. -/
noncomputable def extractMeridian (positions : List Vec3) (center : Vec3)
    (avgRadius : ℝ) (angleDeg : ℚ) (band : List BandVertex) : Geodesic :=
  let pts := meridianPoints positions center avgRadius band
  { angle := angleDeg,
    points := pts,
    totalLength := ((pts.getLast?).map GeodesicPoint.arcLength).getD 0,
    maxDeviation := pts.foldl (fun a p => max a (p.deviation : WithBot ℝ)) ⊥,
    minDeviation := pts.foldl (fun a p => min a (p.deviation : WithTop ℝ)) ⊤,
    anomalyCount := (pts.filter (fun p => decide (1 < |p.deviation|))).length }

/-! ### Lemmas about the meridian point count -/

theorem length_meridianSample (positions : List Vec3) (center : Vec3)
    (avgRadius : ℝ) (band : List BandVertex) :
    (meridianSample positions center avgRadius band).length =
      (sampleIndices band.length (meridianStride band.length)).length := by
  rw [meridianSample]
  simp [(List.perm_insertionSort (fun a b : BandVertex => a.dist ≤ b.dist)
    band).length_eq]

theorem length_derivPass (pts : List GeodesicPoint) :
    (derivPass pts).length = pts.length := by
  simp [derivPass]

theorem length_endpointPass (pts : List GeodesicPoint) :
    (endpointPass pts).length = pts.length := by
  rw [endpointPass]
  by_cases h : 2 ≤ pts.length <;> simp [h]

theorem length_secondDerivPass (pts : List GeodesicPoint) :
    (secondDerivPass pts).length = pts.length := by
  simp [secondDerivPass]

theorem length_meridianPoints (positions : List Vec3) (center : Vec3)
    (avgRadius : ℝ) (band : List BandVertex) :
    (meridianPoints positions center avgRadius band).length =
      (sampleIndices band.length (meridianStride band.length)).length := by
  rw [meridianPoints, length_secondDerivPass, length_endpointPass,
    length_derivPass, length_meridianSample]

/-- Arithmetic helper: `(n + s - 1) / s` is `⌈n / s⌉`. -/
theorem pred_add_div (s n : Nat) (hs : 0 < s) :
    (n + s - 1) / s = n / s + (if n % s = 0 then 0 else 1) := by
  have hdm := Nat.div_add_mod n s
  set q := n / s with hq
  set r := n % s with hr
  have hrlt : r < s := Nat.mod_lt _ hs
  by_cases h0 : r = 0
  · have hrw : n + s - 1 = s * q + (s - 1) := by omega
    rw [hrw, Nat.mul_add_div hs, Nat.div_eq_of_lt (by omega)]
    simp [h0]
  · have hrw : n + s - 1 = s * (q + 1) + (r - 1) := by ring_nf; omega
    rw [hrw, Nat.mul_add_div hs, Nat.div_eq_of_lt (by omega)]
    simp [h0]

/-- Exact count of the strided loop: `⌈n / step⌉` visits. -/
theorem length_sampleIndices (n step : Nat) (hs : 0 < step) :
    (sampleIndices n step).length = (n + step - 1) / step := by
  induction n with
  | zero =>
      have : (step - 1) / step = 0 := Nat.div_eq_of_lt (by omega)
      simp [sampleIndices, this]
  | succ n ih =>
      have hsplit : List.range (n + 1) = List.range n ++ [n] := by
        simp [List.range_succ]
      rw [sampleIndices, hsplit, List.filter_append, List.length_append,
        ← sampleIndices, ih, pred_add_div _ _ hs, pred_add_div _ _ hs]
      have hdvd : step ∣ n + 1 ↔ (n + 1) % step = 0 := Nat.dvd_iff_mod_eq_zero
      have hy : (n + 1) / step = n / step + (if (n + 1) % step = 0 then 1 else 0) := by
        rw [Nat.succ_div]
        by_cases hd : step ∣ n + 1
        · simp [hd, hdvd.mp hd]
        · have hne : ¬ (n + 1) % step = 0 := fun hc => hd (hdvd.mpr hc)
          simp [hd, hne]
      have hfilt : (List.filter (fun i => decide (i % step = 0)) [n]).length =
          if n % step = 0 then 1 else 0 := by
        by_cases hd : n % step = 0 <;> simp [hd]
      rw [hfilt, hy]
      by_cases ha : n % step = 0 <;> by_cases hb : (n + 1) % step = 0 <;>
        simp [ha, hb]

/-- **C2, counterexample.**  A band of 501 vertices (all with finite
distance) yields stride `max(1, ⌊501/500⌋) = 1` and therefore 501 sampled
points — more than the claimed bound of 500. -/
def meridianCexBand : List BandVertex := (List.range 501).map (fun i => ⟨i, i⟩)

theorem meridian_count_can_exceed_500 :
    500 < (meridianPoints [] v3zero 0 meridianCexBand).length := by
  rw [length_meridianPoints]
  have hlen : meridianCexBand.length = 501 := by
    rw [meridianCexBand, List.length_map, List.length_range]
  have hstride : meridianStride 501 = 1 := by decide
  rw [hlen, hstride, length_sampleIndices 501 1 (by omega)]
  omega

/-- **C2, amended.**  The stride is `max(1, ⌊n/500⌋)` for a band of `n`
vertices and the meridian gets `⌈n / stride⌉` sampled points.  That count is
bounded by 999 (the bound is attained at `n = 999`), but it exceeds 500
whenever `500 < n < 1000`, so "at most 500" is wrong and 999 is the correct
worst case. -/
theorem meridian_count_le_999 (positions : List Vec3) (center : Vec3)
    (avgRadius : ℝ) (band : List BandVertex) :
    (meridianPoints positions center avgRadius band).length ≤ 999 := by
  rw [length_meridianPoints]
  set n := band.length with hn
  have hs : 0 < meridianStride n := by
    rw [meridianStride]; omega
  rw [length_sampleIndices n _ hs, pred_add_div _ _ hs]
  rcases Nat.lt_or_ge n 1000 with hsmall | hbig
  · rcases Nat.eq_or_lt_of_le hs with h1 | h2
    · rw [← h1]
      simp [Nat.mod_one]
      omega
    · have hd2 : n / meridianStride n ≤ n / 2 :=
        Nat.div_le_div_left h2 (by omega)
      have hn2 : n / 2 ≤ 499 := by omega
      by_cases hm : n % meridianStride n = 0 <;> simp [hm] <;> omega
  · have hs2 : 2 ≤ n / 500 := by
      calc 2 = 1000 / 500 := by decide
        _ ≤ n / 500 := Nat.div_le_div_right hbig
    have hstride : meridianStride n = n / 500 := by
      rw [meridianStride]; omega
    rw [hstride]
    have hdm := Nat.div_add_mod n 500
    set s := n / 500 with hsdef
    have hrlt : n % 500 < 500 := Nat.mod_lt _ (by omega)
    have hstep1 : n / s ≤ (s * 500 + 499) / s :=
      Nat.div_le_div_right (by omega)
    have hstep2 : (s * 500 + 499) / s = 500 + 499 / s :=
      Nat.mul_add_div (by omega) 500 499
    have hstep3 : 499 / s ≤ 499 / 2 := Nat.div_le_div_left hs2 (by omega)
    have h499 : 499 / 2 = 249 := by decide
    by_cases hm : n % s = 0 <;> simp [hm] <;> omega

/-! ## MeshGraph construction (`MeshGraph.ts`, `MeshGraph.build`)

`build` performs no validation at all.  On a triangle index `i ≥ vertexCount`
the first pass evaluates `neighborSets[i].add(...)` where `neighborSets[i]`
is `undefined`, raising a JS runtime `TypeError` — not any named error. -/

/-- Failure modes relevant to graph construction.  `typeError` is the JS
runtime `TypeError` actually raised by `neighborSets[oob].add(...)`.
Modelled from the spec: `invalidMesh` is the error kind the spec names
(`InvalidMesh`, "malformed indices/empty mesh"); no such error kind exists
anywhere in the source, and it is included here only so that the spec's
claim about it can be stated and compared against what the code throws. -/
inductive JsError where
  | typeError
  | invalidMesh
deriving DecidableEq, Repr

/-- CSR adjacency graph (`MeshGraph` class).  The source stores
`weights[k] = Math.sqrt(dx²+dy²+dz²)`; we store the exact radicand
`weightsSq` and expose the stored root through `MeshGraphQ.weights`. -/
structure MeshGraphQ where
  vertexCount : Nat
  offsets : List Nat
  neighbors : List Nat
  weightsSq : List ℚ
deriving DecidableEq, Repr

/-- The `weights` array of the source: square roots of the stored
radicands. -/
noncomputable def MeshGraphQ.weights (g : MeshGraphQ) : List ℝ :=
  g.weightsSq.map (fun q => Real.sqrt (q : ℝ))

/-- The face triples `(indices[3f], indices[3f+1], indices[3f+2])`. -/
def meshFaces (m : MeshData) : List (Nat × Nat × Nat) :=
  (List.range m.faceCount).map (fun f => (m.faceIdx f 0, m.faceIdx f 1, m.faceIdx f 2))

/-- All three components of a face are valid set indices. -/
def faceOk (n : Nat) (f : Nat × Nat × Nat) : Prop :=
  f.1 < n ∧ f.2.1 < n ∧ f.2.2 < n

instance (n : Nat) (f : Nat × Nat × Nat) : Decidable (faceOk n f) := by
  unfold faceOk
  infer_instance

/-- `neighborSets[u].add(v)`: append `v` to the insertion-ordered set of
vertex `u` unless already present (JS `Set` keeps insertion order). -/
def addNbr (sets : List (List Nat)) (u v : Nat) : List (List Nat) :=
  let su := sets.getD u []
  if v ∈ su then sets else sets.set u (su ++ [v])

/-- The six `add` calls of one face, in source order (lines 271-276). -/
def addFaceSets (sets : List (List Nat)) (f : Nat × Nat × Nat) : List (List Nat) :=
  addNbr (addNbr (addNbr (addNbr (addNbr (addNbr sets f.1 f.2.1)
    f.1 f.2.2) f.2.1 f.1) f.2.1 f.2.2) f.2.2 f.1) f.2.2 f.2.1

/-- First pass of `build` over the faces.  A face with an out-of-range
component stops the pass with the runtime `TypeError` (the first `add` whose
receiver `neighborSets[i]` is `undefined`). -/
def buildSetsE (n : Nat) : List (Nat × Nat × Nat) → List (List Nat) →
    Except JsError (List (List Nat))
  | [], sets => .ok sets
  | f :: rest, sets =>
      if faceOk n f then buildSetsE n rest (addFaceSets sets f)
      else .error .typeError

/-- CSR offsets from the per-vertex set sizes: `offsets[i]` is the running
total of sizes below `i`, with the grand total appended (lines 280-286). -/
def offsetsFrom (lens : List Nat) : List Nat :=
  (List.range (lens.length + 1)).map (fun i => ((lens.take i)).sum)

/-- Second pass: per-vertex squared edge lengths, in set order
(lines 292-306, with the `Math.sqrt` root taken in `MeshGraphQ.weights`). -/
def weightsSqOfSets (m : MeshData) (sets : List (List Nat)) : List ℚ :=
  (sets.mapIdx (fun i su => su.map (fun j => sqDist (m.posAt i) (m.posAt j)))).flatten

/-- `MeshGraph.build(positions, indices, vertexCount)` (lines 254-312). -/
def buildE (m : MeshData) : Except JsError MeshGraphQ :=
  match buildSetsE m.vertexCount (meshFaces m) (List.replicate m.vertexCount []) with
  | .error e => .error e
  | .ok sets =>
      .ok { vertexCount := m.vertexCount,
            offsets := offsetsFrom (sets.map List.length),
            neighbors := sets.flatten,
            weightsSq := weightsSqOfSets m sets }

instance {ε α : Type} [DecidableEq ε] [DecidableEq α] : DecidableEq (Except ε α) :=
  fun a b =>
    match a, b with
    | .error e, .error f => decidable_of_iff (e = f) (by simp)
    | .ok x, .ok y => decidable_of_iff (x = y) (by simp)
    | .error _, .ok _ => isFalse (fun hc => Except.noConfusion hc)
    | .ok _, .error _ => isFalse (fun hc => Except.noConfusion hc)

/-! ### C3 — failure mode of graph construction -/

/-- A mesh with a triangle index out of range (`1 ≥ vertexCount = 1`). -/
def graphCexMesh : MeshData :=
  { positions := [⟨0, 0, 0⟩],
    normals := [⟨0, 1, 0⟩],
    indices := [0, 1, 2],
    vertexCount := 1,
    faceCount := 1 }

/-- **C3, counterexample.**  On an out-of-range index, `MeshGraph.build`
fails with the JS runtime `TypeError`, which is not the named `InvalidMesh`
error kind the claim asserts (no `InvalidMesh` exists in the code). -/
theorem graph_build_oob_not_invalidMesh :
    buildE graphCexMesh = Except.error JsError.typeError ∧
    JsError.typeError ≠ JsError.invalidMesh ∧
    graphCexMesh.indices.length = 3 * graphCexMesh.faceCount := by
  with_unfolding_all exact of_decide_eq_true rfl

theorem buildSetsE_error_iff (n : Nat) (faces : List (Nat × Nat × Nat)) :
    ∀ sets, (∃ e, buildSetsE n faces sets = .error e) ↔ ∃ f ∈ faces, ¬ faceOk n f := by
  induction faces with
  | nil =>
      intro sets
      constructor
      · rintro ⟨e, he⟩; exact absurd he (by simp [buildSetsE])
      · rintro ⟨f, hf, -⟩; exact absurd hf (List.not_mem_nil f)
  | cons f rest ih =>
      intro sets
      rw [buildSetsE]
      by_cases hok : faceOk n f
      · rw [if_pos hok, ih]
        constructor
        · rintro ⟨g, hg, hbad⟩; exact ⟨g, List.mem_cons_of_mem f hg, hbad⟩
        · rintro ⟨g, hg, hbad⟩
          rcases List.mem_cons.mp hg with rfl | hgr
          · exact absurd hok hbad
          · exact ⟨g, hgr, hbad⟩
      · rw [if_neg hok]
        exact ⟨fun _ => ⟨f, List.mem_cons_self f rest, hok⟩, fun _ => ⟨.typeError, rfl⟩⟩

theorem buildSetsE_error_typeError (n : Nat) (faces : List (Nat × Nat × Nat)) :
    ∀ sets e, buildSetsE n faces sets = .error e → e = .typeError := by
  induction faces with
  | nil => intro sets e he; exact absurd he (by simp [buildSetsE])
  | cons f rest ih =>
      intro sets e he
      rw [buildSetsE] at he
      by_cases hok : faceOk n f
      · rw [if_pos hok] at he; exact ih _ _ he
      · rw [if_neg hok] at he
        cases he
        rfl

theorem buildSetsE_ok_of_allOk (n : Nat) (faces : List (Nat × Nat × Nat))
    (hall : ∀ f ∈ faces, faceOk n f) :
    ∀ sets, buildSetsE n faces sets = .ok (faces.foldl addFaceSets sets) := by
  induction faces with
  | nil => intro sets; rfl
  | cons f rest ih =>
      intro sets
      rw [buildSetsE, if_pos (hall f (List.mem_cons_self f rest)), List.foldl_cons]
      exact ih (fun g hg => hall g (List.mem_cons_of_mem f hg)) _

/-- Face components are indices of the mesh. -/
theorem meshFaces_component_mem (m : MeshData)
    (hlen : m.indices.length = 3 * m.faceCount) :
    ∀ f ∈ meshFaces m, f.1 ∈ m.indices ∧ f.2.1 ∈ m.indices ∧ f.2.2 ∈ m.indices := by
  rintro f hf
  rw [meshFaces, List.mem_map] at hf
  obtain ⟨k, hk, rfl⟩ := hf
  rw [List.mem_range] at hk
  refine ⟨?_, ?_, ?_⟩ <;>
    · show m.indices.getD _ 0 ∈ m.indices
      rw [List.getD_eq_getElem?_getD, List.getElem?_eq_getElem (by omega)]
      exact List.getElem_mem _

/-- An out-of-range index lives in some face. -/
theorem bad_index_bad_face (m : MeshData)
    (hlen : m.indices.length = 3 * m.faceCount)
    {i : Nat} (hmem : i ∈ m.indices) (hoob : m.vertexCount ≤ i) :
    ∃ f ∈ meshFaces m, ¬ faceOk m.vertexCount f := by
  obtain ⟨k, hk, hki⟩ := List.mem_iff_getElem.mp hmem
  have hf : k / 3 < m.faceCount := by omega
  refine ⟨(m.faceIdx (k / 3) 0, m.faceIdx (k / 3) 1, m.faceIdx (k / 3) 2), ?_, ?_⟩
  · rw [meshFaces, List.mem_map]
    exact ⟨k / 3, List.mem_range.mpr hf, rfl⟩
  · have hsplit : k = 3 * (k / 3) + k % 3 ∧ k % 3 < 3 := by omega
    have hval : m.faceIdx (k / 3) (k % 3) = i := by
      rw [MeshData.faceIdx, List.getD_eq_getElem?_getD, ← hsplit.1,
        List.getElem?_eq_getElem hk]
      simp [hki]
    intro hok
    obtain ⟨h0, h1, h2⟩ := hok
    have hm3 : k % 3 = 0 ∨ k % 3 = 1 ∨ k % 3 = 2 := by omega
    rcases hm3 with h | h | h <;> rw [h] at hval <;> simp only at h0 h1 h2 <;> omega

/-- **C3, amended.**  `MeshGraph.build` on a mesh with an out-of-range
triangle index fails, but with the JS runtime `TypeError` of
`neighborSets[oob].add(...)` — there is no `InvalidMesh` error kind in the
code; and out-of-range indices are the only fatal condition: with all
indices in range construction always succeeds, and `TypeError` is the only
error ever produced. -/
theorem graph_build_error_characterisation (m : MeshData)
    (hlen : m.indices.length = 3 * m.faceCount) :
    ((∃ i ∈ m.indices, m.vertexCount ≤ i) →
      buildE m = Except.error JsError.typeError) ∧
    ((∀ i ∈ m.indices, i < m.vertexCount) → ∃ g, buildE m = Except.ok g) ∧
    (∀ e, buildE m = Except.error e → e = JsError.typeError) := by
  refine ⟨?_, ?_, ?_⟩
  · rintro ⟨i, hmem, hoob⟩
    have hbad := bad_index_bad_face m hlen hmem hoob
    have herr := (buildSetsE_error_iff m.vertexCount (meshFaces m)
      (List.replicate m.vertexCount [])).mpr hbad
    obtain ⟨e, he⟩ := herr
    have := buildSetsE_error_typeError m.vertexCount (meshFaces m) _ _ he
    subst this
    rw [buildE, he]
  · intro hall
    have hfail : ∀ f ∈ meshFaces m, faceOk m.vertexCount f := by
      intro f hf
      obtain ⟨h0, h1, h2⟩ := meshFaces_component_mem m hlen f hf
      exact ⟨hall _ h0, hall _ h1, hall _ h2⟩
    rw [buildE, buildSetsE_ok_of_allOk _ _ hfail]
    exact ⟨_, rfl⟩
  · intro e he
    rw [buildE] at he
    cases hs : buildSetsE m.vertexCount (meshFaces m) (List.replicate m.vertexCount []) with
    | error e2 =>
        rw [hs] at he
        cases he
        exact buildSetsE_error_typeError _ _ _ _ hs
    | ok sets => rw [hs] at he; cases he

/-- Witness instantiating `graph_build_error_characterisation` at the
concrete out-of-range mesh. -/
theorem graph_build_error_characterisation_witness :
    graphCexMesh.indices.length = 3 * graphCexMesh.faceCount ∧
    ((∃ i ∈ graphCexMesh.indices, graphCexMesh.vertexCount ≤ i) →
      buildE graphCexMesh = Except.error JsError.typeError) ∧
    ((∀ i ∈ graphCexMesh.indices, i < graphCexMesh.vertexCount) →
      ∃ g, buildE graphCexMesh = Except.ok g) ∧
    (∀ e, buildE graphCexMesh = Except.error e → e = JsError.typeError) := by
  have hlen : graphCexMesh.indices.length = 3 * graphCexMesh.faceCount := by
    with_unfolding_all exact of_decide_eq_true rfl
  exact ⟨hlen, graph_build_error_characterisation graphCexMesh hlen⟩

/-! ### C9 — CSR invariant of the built graph -/

/-- The six ordered vertex pairs whose `add` calls one face performs. -/
def pairIn (f : Nat × Nat × Nat) (a w : Nat) : Prop :=
  (a = f.1 ∧ w = f.2.1) ∨ (a = f.1 ∧ w = f.2.2) ∨ (a = f.2.1 ∧ w = f.1) ∨
  (a = f.2.1 ∧ w = f.2.2) ∨ (a = f.2.2 ∧ w = f.1) ∨ (a = f.2.2 ∧ w = f.2.1)

theorem pairIn_symm {f : Nat × Nat × Nat} {a w : Nat} :
    pairIn f a w ↔ pairIn f w a := by
  unfold pairIn; tauto

theorem pairIn_lt {n : Nat} {f : Nat × Nat × Nat} {a w : Nat}
    (hok : faceOk n f) (h : pairIn f a w) : a < n ∧ w < n := by
  obtain ⟨h0, h1, h2⟩ := hok
  unfold pairIn at h
  rcases h with ⟨rfl, rfl⟩ | ⟨rfl, rfl⟩ | ⟨rfl, rfl⟩ | ⟨rfl, rfl⟩ |
    ⟨rfl, rfl⟩ | ⟨rfl, rfl⟩ <;> exact ⟨by omega, by omega⟩

theorem addNbr_def (sets : List (List Nat)) (u v : Nat) :
    addNbr sets u v =
      if v ∈ sets.getD u [] then sets
      else sets.set u (sets.getD u [] ++ [v]) := rfl

theorem getD_set_self {α : Type} (sets : List α) (u : Nat) (x d : α)
    (hu : u < sets.length) : (sets.set u x).getD u d = x := by
  rw [List.getD_eq_getElem?_getD, List.getElem?_set]
  simp [hu]

theorem getD_set_oob {α : Type} (sets : List α) (u : Nat) (x d : α)
    (hu : ¬ u < sets.length) : (sets.set u x).getD u d = sets.getD u d := by
  rw [List.getD_eq_getElem?_getD, List.getElem?_set]
  rw [List.getD_eq_getElem?_getD, List.getElem?_eq_none (l := sets) (by omega)]
  simp [hu]

theorem getD_set_ne {α : Type} (sets : List α) (u a : Nat) (x d : α)
    (hne : u ≠ a) : (sets.set u x).getD a d = sets.getD a d := by
  rw [List.getD_eq_getElem?_getD, List.getElem?_set, if_neg hne,
    ← List.getD_eq_getElem?_getD]

theorem set_oob_eq {α : Type} (l : List α) (u : Nat) (x : α)
    (hu : l.length ≤ u) : l.set u x = l := by
  apply List.ext_getElem
  · rw [List.length_set]
  · intro n h1 h2
    rw [List.length_set] at h1
    have hne : u ≠ n := by omega
    have hset := List.getElem?_set (l := l) (i := u) (j := n) (a := x)
    have hlen2 : n < (l.set u x).length := by rw [List.length_set]; exact h1
    rw [if_neg hne, List.getElem?_eq_getElem hlen2, List.getElem?_eq_getElem h2]
      at hset
    exact Option.some.inj hset

theorem length_addNbr (sets : List (List Nat)) (u v : Nat) :
    (addNbr sets u v).length = sets.length := by
  rw [addNbr_def]
  by_cases h : v ∈ sets.getD u []
  · rw [if_pos h]
  · rw [if_neg h, List.length_set]

theorem mem_addNbr (sets : List (List Nat)) (u v a w : Nat) :
    w ∈ (addNbr sets u v).getD a [] ↔
      w ∈ sets.getD a [] ∨ (a = u ∧ w = v ∧ u < sets.length) := by
  rw [addNbr_def]
  by_cases hv : v ∈ sets.getD u []
  · rw [if_pos hv]
    constructor
    · exact Or.inl
    · rintro (h | ⟨rfl, rfl, hu⟩)
      · exact h
      · exact hv
  · rw [if_neg hv]
    by_cases hau : u = a
    · subst hau
      by_cases hlt : u < sets.length
      · rw [getD_set_self sets u _ _ hlt]
        simp only [List.mem_append, List.mem_singleton]
        tauto
      · rw [getD_set_oob sets u _ _ hlt]
        constructor
        · exact Or.inl
        · rintro (h | ⟨-, -, hcon⟩)
          · exact h
          · exact absurd hcon hlt
    · rw [getD_set_ne sets u a _ _ hau]
      constructor
      · exact Or.inl
      · rintro (h | ⟨rfl, -, -⟩)
        · exact h
        · exact absurd rfl hau

theorem length_addFaceSets (sets : List (List Nat)) (f : Nat × Nat × Nat) :
    (addFaceSets sets f).length = sets.length := by
  rw [addFaceSets]
  simp [length_addNbr]

theorem mem_addFaceSets {n : Nat} (sets : List (List Nat))
    (hlen : sets.length = n) {f : Nat × Nat × Nat} (hok : faceOk n f)
    (a w : Nat) :
    w ∈ (addFaceSets sets f).getD a [] ↔
      w ∈ sets.getD a [] ∨ pairIn f a w := by
  obtain ⟨h0, h1, h2⟩ := hok
  rw [addFaceSets]
  simp only [mem_addNbr, length_addNbr, hlen, pairIn]
  tauto

theorem length_foldFaces {n : Nat} (faces : List (Nat × Nat × Nat)) :
    ∀ sets : List (List Nat), sets.length = n →
      (faces.foldl addFaceSets sets).length = n := by
  induction faces with
  | nil => intro sets h; exact h
  | cons f rest ih =>
      intro sets h
      rw [List.foldl_cons]
      exact ih _ (by rw [length_addFaceSets]; exact h)

theorem mem_foldFaces {n : Nat} (faces : List (Nat × Nat × Nat))
    (hall : ∀ f ∈ faces, faceOk n f) :
    ∀ sets : List (List Nat), sets.length = n → ∀ a w,
      (w ∈ (faces.foldl addFaceSets sets).getD a [] ↔
        w ∈ sets.getD a [] ∨ ∃ f ∈ faces, pairIn f a w) := by
  induction faces with
  | nil =>
      intro sets h a w
      simp
  | cons f rest ih =>
      intro sets h a w
      rw [List.foldl_cons,
        ih (fun g hg => hall g (List.mem_cons_of_mem f hg)) _
          (by rw [length_addFaceSets]; exact h),
        mem_addFaceSets sets h (hall f (List.mem_cons_self f rest))]
      constructor
      · rintro ((hmem | hpair) | ⟨g, hg, hp⟩)
        · exact Or.inl hmem
        · exact Or.inr ⟨f, List.mem_cons_self f rest, hpair⟩
        · exact Or.inr ⟨g, List.mem_cons_of_mem f hg, hp⟩
      · rintro (hmem | ⟨g, hg, hp⟩)
        · exact Or.inl (Or.inl hmem)
        · rcases List.mem_cons.mp hg with rfl | hgr
          · exact Or.inl (Or.inr hp)
          · exact Or.inr ⟨g, hgr, hp⟩

theorem nodup_addNbr (sets : List (List Nat)) (u v : Nat)
    (h : ∀ a, (sets.getD a []).Nodup) :
    ∀ a, ((addNbr sets u v).getD a []).Nodup := by
  intro a
  rw [addNbr_def]
  by_cases hv : v ∈ sets.getD u []
  · rw [if_pos hv]; exact h a
  · rw [if_neg hv]
    by_cases hau : u = a
    · subst hau
      by_cases hlt : u < sets.length
      · rw [getD_set_self sets u _ _ hlt, List.nodup_append]
        refine ⟨h u, List.nodup_singleton v, ?_⟩
        intro x hx
        simp only [List.mem_singleton]
        rintro rfl
        exact hv hx
      · rw [getD_set_oob sets u _ _ hlt]
        exact h u
    · rw [getD_set_ne sets u a _ _ hau]
      exact h a

theorem nodup_addFaceSets (sets : List (List Nat)) (f : Nat × Nat × Nat)
    (h : ∀ a, (sets.getD a []).Nodup) :
    ∀ a, ((addFaceSets sets f).getD a []).Nodup := by
  rw [addFaceSets]
  exact nodup_addNbr _ _ _ (nodup_addNbr _ _ _ (nodup_addNbr _ _ _
    (nodup_addNbr _ _ _ (nodup_addNbr _ _ _ (nodup_addNbr _ _ _ h)))))

theorem nodup_foldFaces (faces : List (Nat × Nat × Nat)) :
    ∀ sets : List (List Nat), (∀ a, (sets.getD a []).Nodup) →
      ∀ a, ((faces.foldl addFaceSets sets).getD a []).Nodup := by
  induction faces with
  | nil => intro sets h; exact h
  | cons f rest ih =>
      intro sets h
      rw [List.foldl_cons]
      exact ih _ (nodup_addFaceSets sets f h)

/-- The CSR slice `[offsets[u], offsets[u+1])` of a flat array. -/
def sliceAt {α : Type} (offsets : List Nat) (flat : List α) (u : Nat) : List α :=
  (flat.drop (offsets.getD u 0)).take (offsets.getD (u + 1) 0 - offsets.getD u 0)

/-- Per-vertex neighbor list of the CSR graph (the `getNeighbors` view). -/
def MeshGraphQ.nbrSlice (g : MeshGraphQ) (u : Nat) : List Nat :=
  sliceAt g.offsets g.neighbors u

/-- Per-vertex stored squared edge lengths, aligned with `nbrSlice`. -/
def MeshGraphQ.wSliceSq (g : MeshGraphQ) (u : Nat) : List ℚ :=
  sliceAt g.offsets g.weightsSq u

/-- The stored squared weight of edge `(u,v)`: value at the slot of `v` in
`u`'s CSR slice. -/
def MeshGraphQ.weightSqOf (g : MeshGraphQ) (u v : Nat) : Option ℚ :=
  (((g.nbrSlice u).zip (g.wSliceSq u)).find? (fun p => decide (p.1 = v))).map
    Prod.snd

/-- The stored weight of edge `(u,v)` as the source keeps it
(`Math.sqrt` applied to the squared distance). -/
noncomputable def MeshGraphQ.weightOf (g : MeshGraphQ) (u v : Nat) : Option ℝ :=
  (g.weightSqOf u v).map (fun q => Real.sqrt (q : ℝ))

theorem length_offsetsFrom (lens : List Nat) :
    (offsetsFrom lens).length = lens.length + 1 := by
  simp [offsetsFrom]

theorem offsetsFrom_getD (lens : List Nat) (i : Nat) (h : i ≤ lens.length) :
    (offsetsFrom lens).getD i 0 = (lens.take i).sum := by
  rw [offsetsFrom, List.getD_eq_getElem?_getD, List.getElem?_map,
    List.getElem?_range (by omega)]
  rfl

theorem offsetsFrom_getD_oob (lens : List Nat) (i : Nat) (h : lens.length + 1 ≤ i) :
    (offsetsFrom lens).getD i 0 = 0 := by
  rw [List.getD_eq_getElem?_getD, List.getElem?_eq_none (by rw [length_offsetsFrom]; omega)]
  rfl

theorem offsetsFrom_mono (lens : List Nat) (i j : Nat) (hij : i ≤ j)
    (hj : j ≤ lens.length) :
    (offsetsFrom lens).getD i 0 ≤ (offsetsFrom lens).getD j 0 := by
  rw [offsetsFrom_getD _ _ (le_trans hij hj), offsetsFrom_getD _ _ hj]
  have hsplit : lens.take j = lens.take i ++ (lens.drop i).take (j - i) := by
    rw [← List.take_add]
    congr 1
    omega
  rw [hsplit, List.sum_append]
  omega

theorem sliceAt_flatten {α : Type} (sets : List (List α)) :
    ∀ u, u < sets.length →
      sliceAt (offsetsFrom (sets.map List.length)) sets.flatten u =
        sets.getD u [] := by
  induction sets with
  | nil => intro u hu; simp at hu
  | cons s rest ih =>
      intro u hu
      cases u with
      | zero =>
          rw [sliceAt, offsetsFrom_getD _ 0 (by simp),
            offsetsFrom_getD _ 1 (by simp)]
          simp only [List.take_zero, List.sum_nil, List.map_cons,
            List.take_succ_cons, List.sum_cons, Nat.add_zero, Nat.sub_zero,
            List.drop_zero, List.flatten_cons]
          rw [List.take_left' rfl]
          rfl
      | succ u2 =>
          have hu2 : u2 < rest.length := by
            simp only [List.length_cons] at hu
            omega
          have hoff : ∀ k, k ≤ rest.length →
              (offsetsFrom ((s :: rest).map List.length)).getD (k + 1) 0 =
                s.length + (offsetsFrom (rest.map List.length)).getD k 0 := by
            intro k hk
            rw [offsetsFrom_getD _ (k + 1) (by simp; omega),
              offsetsFrom_getD _ k (by simp; omega)]
            simp [List.take_succ_cons]
          rw [sliceAt, hoff u2 (by omega), hoff (u2 + 1) (by omega)]
          have hdrop : (s :: rest).flatten.drop
              (s.length + (offsetsFrom (rest.map List.length)).getD u2 0) =
              rest.flatten.drop ((offsetsFrom (rest.map List.length)).getD u2 0) := by
            rw [List.flatten_cons, ← List.drop_drop, List.drop_left]
          rw [hdrop]
          have hsub : s.length + (offsetsFrom (rest.map List.length)).getD (u2 + 1) 0 -
              (s.length + (offsetsFrom (rest.map List.length)).getD u2 0) =
              (offsetsFrom (rest.map List.length)).getD (u2 + 1) 0 -
                (offsetsFrom (rest.map List.length)).getD u2 0 := by omega
          rw [hsub]
          have := ih u2 hu2
          rw [sliceAt] at this
          rw [this]
          rfl

theorem sliceAt_oob {α : Type} (offsets : List Nat) (flat : List α) (u : Nat)
    (h : offsets.getD (u + 1) 0 ≤ offsets.getD u 0) :
    sliceAt offsets flat u = [] := by
  rw [sliceAt, Nat.sub_eq_zero_of_le h, List.take_zero]

/-- The weight pass produces, per vertex, the image of its neighbor set
under the squared-distance map. -/
theorem weightsSq_lengths (m : MeshData) (sets : List (List Nat)) :
    (sets.mapIdx (fun i su => su.map (fun j => sqDist (m.posAt i) (m.posAt j)))).map
      List.length = sets.map List.length := by
  apply List.ext_getElem
  · simp
  · intro k h1 h2
    simp [List.getElem_mapIdx]

theorem sliceAt_weightsSq (m : MeshData) (sets : List (List Nat)) (u : Nat)
    (hu : u < sets.length) :
    sliceAt (offsetsFrom (sets.map List.length)) (weightsSqOfSets m sets) u =
      (sets.getD u []).map (fun j => sqDist (m.posAt u) (m.posAt j)) := by
  rw [weightsSqOfSets, ← weightsSq_lengths m sets,
    sliceAt_flatten _ u (by rw [List.length_mapIdx]; exact hu)]
  have h1 : u < (sets.mapIdx (fun i su => su.map
      (fun j => sqDist (m.posAt i) (m.posAt j)))).length := by
    rw [List.length_mapIdx]; exact hu
  rw [List.getD_eq_getElem?_getD, List.getElem?_eq_getElem h1,
    List.getElem_mapIdx, List.getD_eq_getElem?_getD,
    List.getElem?_eq_getElem hu]
  rfl

theorem find?_zip_map {α β : Type} [DecidableEq α] (f : α → β) (l : List α)
    (v : α) (hv : v ∈ l) :
    ((l.zip (l.map f)).find? (fun p => decide (p.1 = v))).map Prod.snd =
      some (f v) := by
  induction l with
  | nil => cases hv
  | cons a t ih =>
      rw [List.map_cons, List.zip_cons_cons]
      by_cases hav : a = v
      · subst hav
        rw [List.find?_cons_of_pos _ (by simp)]
        rfl
      · rw [List.find?_cons_of_neg _ (by simp [hav])]
        rcases List.mem_cons.mp hv with rfl | hvt
        · exact absurd rfl hav
        · exact ih hvt

/-- **C9.**  For a mesh whose triangle indices are all in range, the built
graph satisfies the CSR invariant: `offsets` starts at 0, ends at
`neighbors.length`, has length `vertexCount + 1` and is non-decreasing;
every per-vertex neighbor slice is duplicate-free; adjacency is symmetric;
and the stored edge weight is consistent: the squared radicand at slot
`(u,v)` is the squared distance of the endpoints, so
`weight(u,v) = weight(v,u)`. -/
theorem graph_build_csr_invariant (m : MeshData)
    (hlen : m.indices.length = 3 * m.faceCount)
    (hidx : ∀ i ∈ m.indices, i < m.vertexCount) :
    ∀ g, buildE m = Except.ok g →
      g.vertexCount = m.vertexCount ∧
      g.offsets.getD 0 0 = 0 ∧
      g.offsets.length = g.vertexCount + 1 ∧
      g.offsets.getD g.vertexCount 0 = g.neighbors.length ∧
      (∀ i j, i ≤ j → j ≤ g.vertexCount →
        g.offsets.getD i 0 ≤ g.offsets.getD j 0) ∧
      (∀ u, (g.nbrSlice u).Nodup) ∧
      (∀ u v, v ∈ g.nbrSlice u ↔ u ∈ g.nbrSlice v) ∧
      (∀ u v, v ∈ g.nbrSlice u →
        g.weightSqOf u v = some (sqDist (m.posAt u) (m.posAt v)) ∧
        g.weightOf u v = g.weightOf v u) := by
  intro g hg
  have hallok : ∀ f ∈ meshFaces m, faceOk m.vertexCount f := by
    intro f hf
    obtain ⟨h0, h1, h2⟩ := meshFaces_component_mem m hlen f hf
    exact ⟨hidx _ h0, hidx _ h1, hidx _ h2⟩
  rw [buildE, buildSetsE_ok_of_allOk _ _ hallok] at hg
  cases hg
  set sets := (meshFaces m).foldl addFaceSets
    (List.replicate m.vertexCount []) with hsets
  have hslen : sets.length = m.vertexCount :=
    length_foldFaces _ _ (by simp)
  have hmemc : ∀ a w, w ∈ sets.getD a [] ↔ ∃ f ∈ meshFaces m, pairIn f a w := by
    intro a w
    rw [hsets, mem_foldFaces _ hallok _ (by simp)]
    constructor
    · rintro (hmem | h)
      · exfalso
        rcases Nat.lt_or_ge a m.vertexCount with ha | ha
        · rw [List.getD_eq_getElem?_getD,
            List.getElem?_eq_getElem (by simp [ha])] at hmem
          simp at hmem
        · rw [List.getD_eq_getElem?_getD,
            List.getElem?_eq_none (by simp; omega)] at hmem
          simp at hmem
      · exact h
    · exact Or.inr
  have hmem_lt : ∀ a w, w ∈ sets.getD a [] → a < m.vertexCount ∧ w < m.vertexCount := by
    intro a w hw
    obtain ⟨f, hf, hp⟩ := (hmemc a w).mp hw
    exact pairIn_lt (hallok f hf) hp
  have hnodup : ∀ a, (sets.getD a []).Nodup := by
    rw [hsets]
    refine nodup_foldFaces _ _ ?_
    intro a
    rcases Nat.lt_or_ge a m.vertexCount with ha | ha
    · rw [List.getD_eq_getElem?_getD, List.getElem?_eq_getElem (by simp [ha])]
      simp
    · rw [List.getD_eq_getElem?_getD, List.getElem?_eq_none (by simp; omega)]
      exact List.nodup_nil
  -- field abbreviations of the constructed graph
  set G : MeshGraphQ :=
    { vertexCount := m.vertexCount,
      offsets := offsetsFrom (sets.map List.length),
      neighbors := sets.flatten,
      weightsSq := weightsSqOfSets m sets } with hG
  have hslice : ∀ u, u < m.vertexCount → G.nbrSlice u = sets.getD u [] := by
    intro u hu
    rw [hG]
    show sliceAt (offsetsFrom (sets.map List.length)) sets.flatten u = _
    exact sliceAt_flatten sets u (by omega)
  have hslice_oob : ∀ u, m.vertexCount ≤ u → G.nbrSlice u = [] := by
    intro u hu
    rw [hG]
    show sliceAt (offsetsFrom (sets.map List.length)) sets.flatten u = []
    apply sliceAt_oob
    rw [offsetsFrom_getD_oob _ (u + 1) (by simp; omega)]
    omega
  have hwslice : ∀ u, u < m.vertexCount →
      G.wSliceSq u = (sets.getD u []).map
        (fun j => sqDist (m.posAt u) (m.posAt j)) := by
    intro u hu
    rw [hG]
    show sliceAt (offsetsFrom (sets.map List.length)) (weightsSqOfSets m sets) u = _
    exact sliceAt_weightsSq m sets u (by omega)
  have hnbr_iff : ∀ u v, v ∈ G.nbrSlice u ↔ ∃ f ∈ meshFaces m, pairIn f u v := by
    intro u v
    rcases Nat.lt_or_ge u m.vertexCount with hu | hu
    · rw [hslice u hu, hmemc]
    · rw [hslice_oob u hu]
      simp only [List.not_mem_nil, false_iff]
      rintro ⟨f, hf, hp⟩
      have := (pairIn_lt (hallok f hf) hp).1
      omega
  refine ⟨rfl, ?_, ?_, ?_, ?_, ?_, ?_, ?_⟩
  · show (offsetsFrom (sets.map List.length)).getD 0 0 = 0
    rw [offsetsFrom_getD _ 0 (by simp)]
    rfl
  · show (offsetsFrom (sets.map List.length)).length = m.vertexCount + 1
    rw [length_offsetsFrom]
    simp [hslen]
  · show (offsetsFrom (sets.map List.length)).getD m.vertexCount 0 =
      sets.flatten.length
    rw [offsetsFrom_getD _ _ (by simp [hslen]), List.length_flatten]
    congr 1
    rw [List.take_of_length_le (by simp [hslen])]
  · intro i j hij hj
    exact offsetsFrom_mono _ i j hij (by simp [hslen]; exact hj)
  · intro u
    rcases Nat.lt_or_ge u m.vertexCount with hu | hu
    · rw [hslice u hu]; exact hnodup u
    · rw [hslice_oob u hu]; exact List.nodup_nil
  · intro u v
    rw [hnbr_iff, hnbr_iff]
    constructor
    · rintro ⟨f, hf, hp⟩; exact ⟨f, hf, pairIn_symm.mp hp⟩
    · rintro ⟨f, hf, hp⟩; exact ⟨f, hf, pairIn_symm.mp hp⟩
  · intro u v hv
    have huv : u < m.vertexCount ∧ v < m.vertexCount := by
      obtain ⟨f, hf, hp⟩ := (hnbr_iff u v).mp hv
      exact pairIn_lt (hallok f hf) hp
    have hvu : u ∈ G.nbrSlice v := by
      rw [hnbr_iff] at hv ⊢
      obtain ⟨f, hf, hp⟩ := hv
      exact ⟨f, hf, pairIn_symm.mp hp⟩
    have hkey : ∀ a b, b ∈ G.nbrSlice a → a < m.vertexCount →
        G.weightSqOf a b = some (sqDist (m.posAt a) (m.posAt b)) := by
      intro a b hb ha
      rw [MeshGraphQ.weightSqOf, hwslice a ha, hslice a ha]
      rw [hslice a ha] at hb
      exact find?_zip_map _ _ _ hb
    have h1 := hkey u v hv huv.1
    have h2 := hkey v u hvu huv.2
    refine ⟨h1, ?_⟩
    rw [MeshGraphQ.weightOf, MeshGraphQ.weightOf, h1, h2, sqDist_comm]

/-- Witness instantiating `graph_build_csr_invariant` on a concrete
two-triangle mesh sharing an edge. -/
def graphWfMesh : MeshData :=
  { positions := [⟨0, 0, 0⟩, ⟨1, 0, 0⟩, ⟨0, 1, 0⟩, ⟨1, 1, 0⟩],
    normals := [⟨0, 0, 1⟩, ⟨0, 0, 1⟩, ⟨0, 0, 1⟩, ⟨0, 0, 1⟩],
    indices := [0, 1, 2, 1, 3, 2],
    vertexCount := 4,
    faceCount := 2 }

theorem graph_build_csr_invariant_witness :
    graphWfMesh.indices.length = 3 * graphWfMesh.faceCount ∧
    (∀ i ∈ graphWfMesh.indices, i < graphWfMesh.vertexCount) ∧
    ∀ g, buildE graphWfMesh = Except.ok g →
      g.vertexCount = graphWfMesh.vertexCount ∧
      g.offsets.getD 0 0 = 0 ∧
      g.offsets.length = g.vertexCount + 1 ∧
      g.offsets.getD g.vertexCount 0 = g.neighbors.length ∧
      (∀ i j, i ≤ j → j ≤ g.vertexCount →
        g.offsets.getD i 0 ≤ g.offsets.getD j 0) ∧
      (∀ u, (g.nbrSlice u).Nodup) ∧
      (∀ u v, v ∈ g.nbrSlice u ↔ u ∈ g.nbrSlice v) ∧
      (∀ u v, v ∈ g.nbrSlice u →
        g.weightSqOf u v = some (sqDist (graphWfMesh.posAt u) (graphWfMesh.posAt v)) ∧
        g.weightOf u v = g.weightOf v u) := by
  have h1 : graphWfMesh.indices.length = 3 * graphWfMesh.faceCount := by
    with_unfolding_all exact of_decide_eq_true rfl
  have h2 : ∀ i ∈ graphWfMesh.indices, i < graphWfMesh.vertexCount := by
    with_unfolding_all exact of_decide_eq_true rfl
  exact ⟨h1, h2, graph_build_csr_invariant graphWfMesh h1 h2⟩

/-! ## GeodesicSolver — Dijkstra (`dijkstraDistances`, lines 14-54)

IEEE `Infinity` distances are `⊤` in `WithTop ℚ`; this matches the
float semantics used by the loop (`Infinity + w = Infinity`,
`Infinity < x` is false). -/

/-- The CSR graph as consumed by `dijkstraDistances` (the claim quantifies
over CSR graphs with non-negative weights). -/
structure CSRGraph where
  vertexCount : Nat
  offsets : List Nat
  neighbors : List Nat
  weights : List ℚ
deriving DecidableEq, Repr

/-- A binary-heap entry `{vertex, distance}` of `PriorityQueue`. -/
structure PQEntry where
  vertex : Nat
  distance : WithTop ℚ
deriving DecidableEq

def pqDefault : PQEntry := ⟨0, ⊤⟩

/-- Array element swap used by `bubbleUp`/`sinkDown`. -/
def heapSwap (h : List PQEntry) (i j : Nat) : List PQEntry :=
  (h.set i (h.getD j pqDefault)).set j (h.getD i pqDefault)

theorem length_heapSwap (h : List PQEntry) (i j : Nat) :
    (heapSwap h i j).length = h.length := by
  rw [heapSwap, List.length_set, List.length_set]

/-- `bubbleUp(i)` of `PriorityQueue` (lines 392-402): sift the element at
`i` up while smaller than its parent. -/
def bubbleUp : List PQEntry → Nat → List PQEntry
  | h, 0 => h
  | h, i + 1 =>
      if (h.getD (i + 1) pqDefault).distance < (h.getD (i / 2) pqDefault).distance
      then bubbleUp (heapSwap h (i + 1) (i / 2)) (i / 2)
      else h
termination_by _ i => i
decreasing_by omega

/-- One `sinkDown` iteration's target: the smallest of `i` and its two
children (lines 406-418). -/
def sinkTarget (h : List PQEntry) (i : Nat) : Nat :=
  let n := h.length
  let s1 := if 2 * i + 1 < n ∧ (h.getD (2 * i + 1) pqDefault).distance <
      (h.getD i pqDefault).distance then 2 * i + 1 else i
  if 2 * i + 2 < n ∧ (h.getD (2 * i + 2) pqDefault).distance <
      (h.getD s1 pqDefault).distance then 2 * i + 2 else s1

/-- `sinkDown` loop (lines 404-423), fuelled: each iteration moves `i` to a
strict child (`sinkTarget > i`) and stops when no child is smaller, so
`h.length` iterations always suffice; the fuel is set accordingly by
`pqPop`. -/
def sinkDownF : Nat → List PQEntry → Nat → List PQEntry
  | 0, h, _ => h
  | fuel + 1, h, i =>
      let s := sinkTarget h i
      if s = i then h else sinkDownF fuel (heapSwap h i s) s

/-- `push(vertex, distance)` (lines 376-379). -/
def pqPush (h : List PQEntry) (v : Nat) (d : WithTop ℚ) : List PQEntry :=
  bubbleUp (h ++ [⟨v, d⟩]) h.length

/-- `pop()` (lines 381-390): return the root, move the last element to the
root and sift it down. -/
def pqPop (h : List PQEntry) : Option (PQEntry × List PQEntry) :=
  match h with
  | [] => none
  | top :: _ =>
      let t := h.dropLast
      if t.isEmpty then some (top, [])
      else some (top, sinkDownF t.length (t.set 0 (h.getLastD pqDefault)) 0)

/-- CSR edge relation: slot `i` of `u`'s neighbor range points at `v`. -/
def CSRGraph.Edge (g : CSRGraph) (u v : Nat) : Prop :=
  ∃ i, g.offsets.getD u 0 ≤ i ∧ i < g.offsets.getD (u + 1) 0 ∧
    g.neighbors.getD i 0 = v

/-- Reachability from the source along CSR edges. -/
inductive CSRGraph.Reach (g : CSRGraph) (s : Nat) : Nat → Prop
  | refl : CSRGraph.Reach g s s
  | step {u v : Nat} : CSRGraph.Reach g s u → g.Edge u v → CSRGraph.Reach g s v

/-- Mutable state of the Dijkstra loop. -/
structure DijkState where
  dist : List (WithTop ℚ)
  pred : List Int
  visited : List Bool
  pq : List PQEntry

/-- Relaxation of one neighbor slot `i` of the popped vertex `u`
(lines 40-50). -/
def relaxEdge (g : CSRGraph) (u : Nat) (st : DijkState) (i : Nat) : DijkState :=
  let v := g.neighbors.getD i 0
  if st.visited.getD v false then st
  else
    let nd := st.dist.getD u ⊤ + (g.weights.getD i 0 : WithTop ℚ)
    if nd < st.dist.getD v ⊤ then
      { dist := st.dist.set v nd,
        pred := st.pred.set v (u : Int),
        visited := st.visited,
        pq := pqPush st.pq v nd }
    else st

/-- The inner `for` loop over `u`'s CSR slots (lines 37-50). -/
def relaxAll (g : CSRGraph) (u : Nat) (st : DijkState) : DijkState :=
  (List.range' (g.offsets.getD u 0)
    (g.offsets.getD (u + 1) 0 - g.offsets.getD u 0)).foldl (relaxEdge g u) st

/-- The `while (pq.size > 0)` loop (lines 30-51), fuelled.  Every iteration
pops one entry; total pushes are bounded by `1 + |neighbors|` (the source
push plus at most one push per successful relaxation, and each vertex is
expanded at most once), so `dijkstraFuel` always exhausts the queue. -/
def dijkstraLoop (g : CSRGraph) : Nat → DijkState → DijkState
  | 0, st => st
  | fuel + 1, st =>
      match pqPop st.pq with
      | none => st
      | some (e, pq2) =>
          let st2 : DijkState := { st with pq := pq2 }
          if st2.visited.getD e.vertex false then dijkstraLoop g fuel st2
          else
            dijkstraLoop g fuel
              (relaxAll g e.vertex
                { st2 with visited := st2.visited.set e.vertex true })

def dijkstraFuel (g : CSRGraph) : Nat := g.neighbors.length + g.vertexCount + 2

/-- `dijkstraDistances(graph, source)` (lines 14-54). -/
def dijkstraDistances (g : CSRGraph) (source : Nat) : List (WithTop ℚ) × List Int :=
  let st0 : DijkState :=
    { dist := (List.replicate g.vertexCount (⊤ : WithTop ℚ)).set source 0,
      pred := List.replicate g.vertexCount (-1),
      visited := List.replicate g.vertexCount false,
      pq := pqPush [] source 0 }
  let stF := dijkstraLoop g (dijkstraFuel g) st0
  (stF.dist, stF.pred)

/-! ### C4 — invariants of `dijkstraDistances` -/

/-- The loop invariant: array sizes, `dist[source] = 0`, non-negative
distances, unreachable vertices untouched, and predecessor monotonicity. -/
def DijkInv (g : CSRGraph) (s : Nat) (st : DijkState) : Prop :=
  st.dist.length = g.vertexCount ∧
  st.pred.length = g.vertexCount ∧
  st.dist.getD s ⊤ = 0 ∧
  (∀ v, 0 ≤ st.dist.getD v ⊤) ∧
  (∀ v, ¬ g.Reach s v → st.dist.getD v ⊤ = ⊤ ∧ st.pred.getD v (-1) = -1) ∧
  (∀ v u : Nat, st.pred.getD v (-1) = (u : Int) →
    st.dist.getD u ⊤ ≤ st.dist.getD v ⊤)

theorem weight_getD_nonneg (g : CSRGraph) (hw : ∀ q ∈ g.weights, 0 ≤ q)
    (i : Nat) : (0 : ℚ) ≤ g.weights.getD i 0 := by
  rcases Nat.lt_or_ge i g.weights.length with h | h
  · rw [List.getD_eq_getElem?_getD, List.getElem?_eq_getElem h]
    exact hw _ (List.getElem_mem h)
  · rw [List.getD_eq_getElem?_getD, List.getElem?_eq_none (by omega)]
    exact le_refl 0

theorem relaxEdge_inv (g : CSRGraph) (s u : Nat)
    (hw : ∀ q ∈ g.weights, 0 ≤ q) (st : DijkState) (i : Nat)
    (hi : g.offsets.getD u 0 ≤ i ∧ i < g.offsets.getD (u + 1) 0)
    (hinv : DijkInv g s st) : DijkInv g s (relaxEdge g u st i) := by
  obtain ⟨hdl, hpl, hds, hnn, hunr, hmono⟩ := hinv
  rw [relaxEdge]
  set v := g.neighbors.getD i 0 with hv
  by_cases hvis : st.visited.getD v false = true
  · rw [if_pos hvis]
    exact ⟨hdl, hpl, hds, hnn, hunr, hmono⟩
  · rw [if_neg hvis]
    set nd := st.dist.getD u ⊤ + (g.weights.getD i 0 : WithTop ℚ) with hnd
    by_cases hrel : nd < st.dist.getD v ⊤
    · rw [if_pos hrel]
      have hw0 : (0 : WithTop ℚ) ≤ (g.weights.getD i 0 : WithTop ℚ) := by
        exact_mod_cast weight_getD_nonneg g hw i
      have hnd0 : 0 ≤ nd := add_nonneg (hnn u) hw0
      have hular : st.dist.getD u ⊤ ≤ nd := le_add_of_nonneg_right hw0
      rcases Nat.lt_or_ge v g.vertexCount with hvlt | hvge
      swap
      · -- out-of-range writes are no-ops
        have h1 : st.dist.set v nd = st.dist := set_oob_eq _ _ _ (by omega)
        have h2 : st.pred.set v (u : Int) = st.pred := set_oob_eq _ _ _ (by omega)
        rw [DijkInv]
        dsimp only
        rw [h1, h2]
        exact ⟨hdl, hpl, hds, hnn, hunr, hmono⟩
      · have hvd : v < st.dist.length := by omega
        have hvp : v < st.pred.length := by omega
        have hreach_u : g.Reach s u := by
          by_contra hru
          have := (hunr u hru).1
          rw [this] at hnd
          rw [hnd, top_add] at hrel
          exact absurd hrel not_top_lt
        have hedge : g.Edge u v := ⟨i, hi.1, hi.2, rfl⟩
        have hreach_v : g.Reach s v := CSRGraph.Reach.step hreach_u hedge
        rw [DijkInv]
        dsimp only
        refine ⟨by rw [List.length_set]; exact hdl,
          by rw [List.length_set]; exact hpl, ?_, ?_, ?_, ?_⟩
        · -- dist[source] stays 0
          by_cases hvs : v = s
          · subst hvs
            rw [hds] at hrel
            exact absurd (lt_of_le_of_lt hnd0 hrel) (lt_irrefl _)
          · rw [getD_set_ne _ _ _ _ _ (fun h => hvs h)]
            exact hds
        · intro x
          by_cases hxv : x = v
          · subst hxv
            rw [getD_set_self _ _ _ _ hvd]
            exact hnd0
          · rw [getD_set_ne _ _ _ _ _ (fun h => hxv h.symm)]
            exact hnn x
        · intro x hx
          by_cases hxv : x = v
          · subst hxv
            exact absurd hreach_v hx
          · rw [getD_set_ne _ _ _ _ _ (fun h => hxv h.symm),
              getD_set_ne _ _ _ _ _ (fun h => hxv h.symm)]
            exact hunr x hx
        · intro x y hxy
          by_cases hxv : x = v
          · subst hxv
            rw [getD_set_self _ _ _ _ hvp] at hxy
            have hyu : u = y := by exact_mod_cast hxy
            subst hyu
            rw [getD_set_self _ _ _ _ hvd]
            by_cases huv : u = v
            · rw [huv, getD_set_self _ _ _ _ hvd]
            · rw [getD_set_ne _ _ _ _ _ (fun h => huv h.symm)]
              exact hular
          · rw [getD_set_ne _ _ _ _ _ (fun h => hxv h.symm)] at hxy
            have hold := hmono x y hxy
            rw [getD_set_ne _ _ _ _ _ (fun h => hxv h.symm)]
            by_cases hyv : y = v
            · subst hyv
              rw [getD_set_self _ _ _ _ hvd]
              exact le_trans (le_of_lt hrel) hold
            · rw [getD_set_ne _ _ _ _ _ (fun h => hyv h.symm)]
              exact hold
    · rw [if_neg hrel]
      exact ⟨hdl, hpl, hds, hnn, hunr, hmono⟩

theorem relaxAll_inv (g : CSRGraph) (s u : Nat)
    (hw : ∀ q ∈ g.weights, 0 ≤ q) (st : DijkState)
    (hinv : DijkInv g s st) : DijkInv g s (relaxAll g u st) := by
  rw [relaxAll]
  have key : ∀ (l : List Nat),
      (∀ i ∈ l, g.offsets.getD u 0 ≤ i ∧ i < g.offsets.getD (u + 1) 0) →
      ∀ st2, DijkInv g s st2 → DijkInv g s (l.foldl (relaxEdge g u) st2) := by
    intro l
    induction l with
    | nil => intro _ st2 h; exact h
    | cons a t ih =>
        intro hall st2 h
        rw [List.foldl_cons]
        exact ih (fun j hj => hall j (List.mem_cons_of_mem a hj)) _
          (relaxEdge_inv g s u hw st2 a (hall a (List.mem_cons_self a t)) h)
  refine key _ ?_ st hinv
  intro j hj
  rw [List.mem_range'] at hj
  omega

theorem visited_set_inv (g : CSRGraph) (s : Nat) (st : DijkState)
    (u : Nat) (pq2 : List PQEntry) (hinv : DijkInv g s st) :
    DijkInv g s { st with visited := st.visited.set u true, pq := pq2 } := by
  obtain ⟨hdl, hpl, hds, hnn, hunr, hmono⟩ := hinv
  exact ⟨hdl, hpl, hds, hnn, hunr, hmono⟩

theorem pq_set_inv (g : CSRGraph) (s : Nat) (st : DijkState)
    (pq2 : List PQEntry) (hinv : DijkInv g s st) :
    DijkInv g s { st with pq := pq2 } := by
  obtain ⟨hdl, hpl, hds, hnn, hunr, hmono⟩ := hinv
  exact ⟨hdl, hpl, hds, hnn, hunr, hmono⟩

theorem dijkstraLoop_inv (g : CSRGraph) (s : Nat)
    (hw : ∀ q ∈ g.weights, 0 ≤ q) :
    ∀ fuel st, DijkInv g s st → DijkInv g s (dijkstraLoop g fuel st) := by
  intro fuel
  induction fuel with
  | zero => intro st h; exact h
  | succ fuel ih =>
      intro st h
      rw [dijkstraLoop]
      cases hp : pqPop st.pq with
      | none => exact h
      | some pr =>
          obtain ⟨e, pq2⟩ := pr
          dsimp only
          have h2 : DijkInv g s { st with pq := pq2 } := pq_set_inv g s st pq2 h
          by_cases hvis :
              ({ st with pq := pq2 } : DijkState).visited.getD e.vertex false = true
          · rw [if_pos hvis]
            exact ih _ h2
          · rw [if_neg hvis]
            exact ih _ (relaxAll_inv g s e.vertex hw _
              (visited_set_inv g s { st with pq := pq2 } e.vertex pq2 h2))

/-- **C4.**  For every CSR graph with non-negative edge weights and every
valid source vertex: the source's distance is 0; every vertex unreachable
from the source keeps distance `∞` and predecessor `-1`; and whenever
`pred[v] = u ≥ 0`, `dist[u] ≤ dist[v]`, so distances are monotonically
non-decreasing along every predecessor chain back to the source. -/
theorem dijkstra_distances_invariants (g : CSRGraph) (source : Nat)
    (hw : ∀ q ∈ g.weights, 0 ≤ q) (hs : source < g.vertexCount) :
    ((dijkstraDistances g source).1.getD source ⊤ = 0) ∧
    (∀ v, ¬ g.Reach source v →
      (dijkstraDistances g source).1.getD v ⊤ = ⊤ ∧
      (dijkstraDistances g source).2.getD v (-1) = -1) ∧
    (∀ v u : Nat, (dijkstraDistances g source).2.getD v (-1) = (u : Int) →
      (dijkstraDistances g source).1.getD u ⊤ ≤
        (dijkstraDistances g source).1.getD v ⊤) := by
  have hinit : DijkInv g source
      { dist := (List.replicate g.vertexCount (⊤ : WithTop ℚ)).set source 0,
        pred := List.replicate g.vertexCount (-1),
        visited := List.replicate g.vertexCount false,
        pq := pqPush [] source 0 } := by
    have hrepl : ∀ v, ((List.replicate g.vertexCount (⊤ : WithTop ℚ))).getD v ⊤ = ⊤ := by
      intro v
      rcases Nat.lt_or_ge v g.vertexCount with hv | hv
      · rw [List.getD_eq_getElem?_getD,
          List.getElem?_eq_getElem (by simp [hv]), List.getElem_replicate]
        rfl
      · rw [List.getD_eq_getElem?_getD, List.getElem?_eq_none (by simp; omega)]
        rfl
    have hpredv : ∀ v, (List.replicate g.vertexCount (-1 : Int)).getD v (-1) = -1 := by
      intro v
      rcases Nat.lt_or_ge v g.vertexCount with hv | hv
      · rw [List.getD_eq_getElem?_getD,
          List.getElem?_eq_getElem (by simp [hv]), List.getElem_replicate]
        rfl
      · rw [List.getD_eq_getElem?_getD, List.getElem?_eq_none (by simp; omega)]
        rfl
    refine ⟨by simp, by simp, ?_, ?_, ?_, ?_⟩
    · exact getD_set_self _ _ _ _ (by simp [hs])
    · intro v
      by_cases hv : v = source
      · subst hv
        rw [getD_set_self _ _ _ _ (by simp [hs])]
      · rw [getD_set_ne _ _ _ _ _ (fun h => hv h.symm), hrepl v]
        exact le_top
    · intro v hv
      have hvs : v ≠ source := by
        rintro rfl
        exact hv (CSRGraph.Reach.refl)
      rw [getD_set_ne _ _ _ _ _ (fun h => hvs h.symm), hrepl v]
      exact ⟨rfl, hpredv v⟩
    · intro v u hvu
      rw [hpredv v] at hvu
      exact absurd hvu.symm (by simp)
  have hfin := dijkstraLoop_inv g source hw (dijkstraFuel g) _ hinit
  obtain ⟨-, -, hds, -, hunr, hmono⟩ := hfin
  exact ⟨hds, fun v hv => hunr v hv, hmono⟩

/-- A concrete graph for the witness: two vertices, no edges, so vertex 1 is
unreachable from vertex 0. -/
def dijkstraCexGraph : CSRGraph :=
  { vertexCount := 2, offsets := [0, 0, 0], neighbors := [], weights := [] }

/-- Witness instantiating `dijkstra_distances_invariants` at a concrete
graph and source. -/
theorem dijkstra_distances_invariants_witness :
    (∀ q ∈ dijkstraCexGraph.weights, 0 ≤ q) ∧
    0 < dijkstraCexGraph.vertexCount ∧
    ((dijkstraDistances dijkstraCexGraph 0).1.getD 0 ⊤ = 0) ∧
    (∀ v, ¬ dijkstraCexGraph.Reach 0 v →
      (dijkstraDistances dijkstraCexGraph 0).1.getD v ⊤ = ⊤ ∧
      (dijkstraDistances dijkstraCexGraph 0).2.getD v (-1) = -1) ∧
    (∀ v u : Nat,
      (dijkstraDistances dijkstraCexGraph 0).2.getD v (-1) = (u : Int) →
      (dijkstraDistances dijkstraCexGraph 0).1.getD u ⊤ ≤
        (dijkstraDistances dijkstraCexGraph 0).1.getD v ⊤) := by
  have hw : ∀ q ∈ dijkstraCexGraph.weights, 0 ≤ q := by
    intro q hq
    exact absurd hq (List.not_mem_nil q)
  have hs : (0 : Nat) < dijkstraCexGraph.vertexCount := by
    with_unfolding_all exact of_decide_eq_true rfl
  obtain ⟨h1, h2, h3⟩ := dijkstra_distances_invariants dijkstraCexGraph 0 hw hs
  exact ⟨hw, hs, h1, h2, h3⟩

/-! ## AnomalyRegistry — DBSCAN clustering (`clusterAnomalies`/`dbscan`)

`regionQuery` compares `p.distanceTo(q) <= eps`; since `Math.sqrt` of the
non-negative squared distance is non-negative and monotone, that comparison
is exactly `0 ≤ eps ∧ sqDist p q ≤ eps²`, which is how it is embedded. -/

inductive AnomalyType where
  | bump
  | dip
deriving DecidableEq, Repr

/-- `AnomalyPoint` of `types.ts`. -/
structure AnomalyPoint where
  position : Vec3
  deviation : ℚ
  type : AnomalyType
  geodesicAngle : ℚ
  arcLength : ℚ
  derivative : ℚ
  vertexIndex : Nat
deriving DecidableEq, Repr

def apDefault : AnomalyPoint := ⟨v3zero, 0, AnomalyType.bump, 0, 0, 0, 0⟩

/-- `AnomalyCluster` of `types.ts`.  The source stores
`area = π·maxRadius²` where `maxRadius` is the largest member-to-centroid
distance (`Math.sqrt`); the largest root equals the root of the largest
radicand, so we store that radicand `maxRadiusSq` and expose the source's
`area` as `AnomalyCluster.area` below. -/
structure AnomalyCluster where
  id : Int
  type : AnomalyType
  points : List AnomalyPoint
  centroid : Vec3
  maxRadiusSq : ℚ
  volume : ℚ
  avgDeviation : ℚ
  maxDeviation : WithBot ℚ
  minDeviation : WithTop ℚ
  maxDeviationPoint : Vec3
deriving DecidableEq, Repr

/-- The source's `area` field: `π · maxRadius²`. -/
noncomputable def AnomalyCluster.area (c : AnomalyCluster) : ℝ :=
  Real.pi * (c.maxRadiusSq : ℝ)

/-- `regionQuery(points, index, eps)` (lines 116-128): all indices whose
point lies within `eps` of the query point (including the query itself). -/
def regionQuery (pts : List AnomalyPoint) (i : Nat) (eps : ℚ) : List Nat :=
  (List.range pts.length).filter (fun j =>
    decide (0 ≤ eps) &&
      decide (sqDist (pts.getD i apDefault).position
        (pts.getD j apDefault).position ≤ eps * eps))

/-- `buildCluster(id, type, points)` (lines 133-182). -/
def buildCluster (id : Int) (ty : AnomalyType) (pts : List AnomalyPoint) :
    AnomalyCluster :=
  let centroid := Vec3.smul (1 / (pts.length : ℚ))
    (pts.foldl (fun a p => Vec3.add a p.position) v3zero)
  let md := pts.foldl (fun (st : ℚ × Vec3) p =>
      if st.1 < |p.deviation| then (|p.deviation|, p.position) else st)
    (0, (pts.getD 0 apDefault).position)
  { id := id, type := ty, points := pts, centroid := centroid,
    maxRadiusSq := pts.foldl (fun acc p =>
      if acc < sqDist p.position centroid then sqDist p.position centroid
      else acc) 0,
    volume := 0,
    avgDeviation := (pts.foldl (fun s p => s + p.deviation) 0) / (pts.length : ℚ),
    maxDeviation := pts.foldl (fun a p => max a (p.deviation : WithBot ℚ)) ⊥,
    minDeviation := pts.foldl (fun a p => min a (p.deviation : WithTop ℚ)) ⊤,
    maxDeviationPoint := md.2 }

/-- State of the cluster-expansion loop: `labels`, the `seed` set (JS `Set`,
insertion-ordered), the `seedArray` stack, and `clusterPoints`. -/
structure ExpSt where
  labels : List Int
  seen : List Nat
  stack : List Nat
  acc : List AnomalyPoint

/-- The inner `for (const k of jNeighbors)` loop (lines 85-92). -/
def pushNeighbors (st : ExpSt) (nbrs : List Nat) : ExpSt :=
  nbrs.foldl (fun s k =>
    if (s.labels.getD k 0 = -1 ∨ s.labels.getD k 0 = -2) ∧ k ∉ s.seen then
      { s with seen := s.seen ++ [k], stack := s.stack ++ [k] }
    else s) st

/-- The body of one `while` iteration after popping `j` (lines 73-93):
promote a noise point to a border point, or label-and-expand an unvisited
point. -/
def expandStep (pts : List AnomalyPoint) (eps : ℚ) (minPts : Nat) (cid : Int)
    (st : ExpSt) (j : Nat) : ExpSt :=
  let st1 :=
    if st.labels.getD j 0 = -2 then
      { st with
        labels := st.labels.set j cid,
        acc := st.acc ++ [pts.getD j apDefault] }
    else st
  if st1.labels.getD j 0 ≠ -1 then st1
  else
    let st2 : ExpSt :=
      { st1 with
        labels := st1.labels.set j cid,
        acc := st1.acc ++ [pts.getD j apDefault] }
    let nbrs := regionQuery pts j eps
    if minPts ≤ nbrs.length then pushNeighbors st2 nbrs else st2

/-- The `while (seedArray.length > 0)` loop (lines 72-94), fuelled.  Every
pushed index is new to the `seed` set and below `pts.length`, so at most
`pts.length` stack insertions (hence pops) ever happen; `pts.length + 1`
fuel always drains the stack. -/
def expandLoop (pts : List AnomalyPoint) (eps : ℚ) (minPts : Nat) (cid : Int) :
    Nat → ExpSt → ExpSt
  | 0, st => st
  | fuel + 1, st =>
      match st.stack.getLast? with
      | none => st
      | some j =>
          expandLoop pts eps minPts cid fuel
            (expandStep pts eps minPts cid { st with stack := st.stack.dropLast } j)

/-- State of the main DBSCAN loop. -/
structure DbSt where
  labels : List Int
  clusters : List AnomalyCluster
  nextId : Int

/-- One iteration of the main loop (lines 54-99) at index `i`. -/
def dbscanStep (pts : List AnomalyPoint) (eps : ℚ) (minPts : Nat)
    (ty : AnomalyType) (st : DbSt) (i : Nat) : DbSt :=
  if st.labels.getD i 0 ≠ -1 then st
  else
    let nbrs := regionQuery pts i eps
    if nbrs.length < minPts then { st with labels := st.labels.set i (-2) }
    else
      let est0 : ExpSt :=
        { labels := st.labels.set i st.nextId, seen := nbrs, stack := nbrs,
          acc := [pts.getD i apDefault] }
      let est := expandLoop pts eps minPts st.nextId (pts.length + 1) est0
      { labels := est.labels,
        clusters := st.clusters ++ [buildCluster st.nextId ty est.acc],
        nextId := st.nextId + 1 }

/-- One iteration of the noise-promotion loop (lines 103-108). -/
def promStep (pts : List AnomalyPoint) (ty : AnomalyType) (labels : List Int)
    (p : List AnomalyCluster × Int) (i : Nat) : List AnomalyCluster × Int :=
  if labels.getD i 0 = -2 ∧ 5 < |(pts.getD i apDefault).deviation| then
    (p.1 ++ [buildCluster p.2 ty [pts.getD i apDefault]], p.2 + 1)
  else p

/-- The main labelling/expansion loop of `dbscan` (lines 50-99). -/
def dbscanMain (pts : List AnomalyPoint) (eps : ℚ) (minPts : Nat)
    (ty : AnomalyType) : DbSt :=
  (List.range pts.length).foldl (dbscanStep pts eps minPts ty)
    { labels := List.replicate pts.length (-1), clusters := [], nextId := 0 }

/-- `dbscan(points, eps, minPoints, type)` (lines 41-111), exposing the
final labels alongside the cluster list. -/
def dbscanAux (pts : List AnomalyPoint) (eps : ℚ) (minPts : Nat)
    (ty : AnomalyType) : DbSt :=
  let stMain := dbscanMain pts eps minPts ty
  let prom := (List.range pts.length).foldl
    (promStep pts ty stMain.labels) (stMain.clusters, stMain.nextId)
  { labels := stMain.labels, clusters := prom.1, nextId := prom.2 }

/-- The final labels array of one `dbscan` run (internal state exposed for
specification purposes; the promotion loop does not modify labels). -/
def dbscanLabels (pts : List AnomalyPoint) (eps : ℚ) (minPts : Nat)
    (ty : AnomalyType) : List Int :=
  (dbscanAux pts eps minPts ty).labels

def dbscan (pts : List AnomalyPoint) (eps : ℚ) (minPts : Nat)
    (ty : AnomalyType) : List AnomalyCluster :=
  if pts.length = 0 then [] else (dbscanAux pts eps minPts ty).clusters

/-- `clusterAnomalies(points, eps, minPoints)` (lines 16-36): run DBSCAN
separately on bumps and dips, then renumber cluster ids sequentially, all
bump clusters before all dip clusters. -/
def clusterAnomalies (pts : List AnomalyPoint) (eps : ℚ) (minPts : Nat) :
    List AnomalyCluster :=
  if pts.length = 0 then []
  else
    let bumps := pts.filter (fun p => decide (p.type = AnomalyType.bump))
    let dips := pts.filter (fun p => decide (p.type = AnomalyType.dip))
    ((dbscan bumps eps minPts AnomalyType.bump) ++
      (dbscan dips eps minPts AnomalyType.dip)).mapIdx
      (fun k c => { c with id := (k : Int) })

/-! ### C5 — DBSCAN is not order-invariant -/

/-- A dip anomaly point on the x axis. -/
def dipAt (x : ℚ) : AnomalyPoint := ⟨⟨x, 0, 0⟩, -1, AnomalyType.dip, 0, 0, 0, 0⟩

/-- Two clusters of four mutually-close points each, plus one border point
`b` at distance exactly `eps = 1` from a core point of each cluster.  With
`minPoints = 4`, `b` is not a core point but is density-reachable from both
clusters, so it joins whichever cluster is expanded first. -/
def dbscanPts1 : List AnomalyPoint :=
  [dipAt (-1), dipAt (-1/2), dipAt (-3/4), dipAt 0, dipAt 1,
   dipAt 2, dipAt (5/2), dipAt (11/4), dipAt 3]

/-- The same point set with the right cluster's points listed first. -/
def dbscanPts2 : List AnomalyPoint :=
  [dipAt (5/2), dipAt (11/4), dipAt 3, dipAt 2, dipAt 1,
   dipAt 0, dipAt (-1), dipAt (-1/2), dipAt (-3/4)]

/-- Whether two points land in a common cluster of the returned list. -/
def inSameCluster (cs : List AnomalyCluster) (p q : AnomalyPoint) : Bool :=
  cs.any (fun c => decide (p ∈ c.points) && decide (q ∈ c.points))

/-- **C5, counterexample.**  The two orderings of the same nine-point set
produce different partitions: the border point `dipAt 1` shares a cluster
with `dipAt 0` in the first order but not in the second. -/
theorem dbscan_not_order_invariant :
    dbscanPts2.Perm dbscanPts1 ∧
    inSameCluster (clusterAnomalies dbscanPts1 1 4) (dipAt 1) (dipAt 0) = true ∧
    inSameCluster (clusterAnomalies dbscanPts2 1 4) (dipAt 1) (dipAt 0) = false := by
  refine ⟨?_, ?_, ?_⟩
  · rw [← List.isPerm_iff]
    with_unfolding_all exact of_decide_eq_true rfl
  · with_unfolding_all exact of_decide_eq_true rfl
  · with_unfolding_all exact of_decide_eq_true rfl

/-- Counting an index filter over `range` is counting the elements. -/
theorem length_filter_range_getD {α : Type} (l : List α) (d : α) (P : α → Bool) :
    ((List.range l.length).filter (fun j => P (l.getD j d))).length =
      l.countP P := by
  induction l with
  | nil => rfl
  | cons a t ih =>
      rw [List.length_cons, List.range_succ_eq_map, List.filter_cons]
      have hmap : (List.map Nat.succ (List.range t.length)).filter
          (fun j => P ((a :: t).getD j d)) =
          List.map Nat.succ ((List.range t.length).filter
            (fun j => P (t.getD j d))) := by
        rw [List.filter_map]
        rfl
      by_cases hp : P a = true
      · have : P ((a :: t).getD 0 d) = true := hp
        rw [if_pos this, List.length_cons, hmap, List.length_map, ih,
          List.countP_cons]
        simp [hp]
      · have : ¬ P ((a :: t).getD 0 d) = true := hp
        rw [if_neg this, hmap, List.length_map, ih, List.countP_cons]
        simp [hp]

/-- `regionQuery`'s neighbor count only depends on the query point and, as a
multiset, on the point set. -/
theorem regionQuery_length_eq_countP (pts : List AnomalyPoint) (i : Nat)
    (eps : ℚ) :
    (regionQuery pts i eps).length =
      pts.countP (fun q => decide (0 ≤ eps) &&
        decide (sqDist (pts.getD i apDefault).position q.position ≤ eps * eps)) := by
  rw [regionQuery]
  exact length_filter_range_getD pts apDefault
    (fun q => decide (0 ≤ eps) &&
      decide (sqDist (pts.getD i apDefault).position q.position ≤ eps * eps))

/-- **C5, amended.**  The clustering is *not* invariant to input point
order (see the counterexample: a non-core border point within `eps` of core
points of two different clusters joins whichever cluster is expanded
first).  What is order-invariant is each point's core/non-core status: the
core-point test `regionQuery(...).length ≥ minPoints` gives the same answer
for the same point under any permutation of the input. -/
theorem dbscan_core_status_order_invariant (pts1 pts2 : List AnomalyPoint)
    (hperm : pts1.Perm pts2) (eps : ℚ) (minPts : Nat) (i j : Nat)
    (hpt : pts1.getD i apDefault = pts2.getD j apDefault) :
    (minPts ≤ (regionQuery pts1 i eps).length ↔
      minPts ≤ (regionQuery pts2 j eps).length) := by
  rw [regionQuery_length_eq_countP, regionQuery_length_eq_countP, hpt,
    hperm.countP_eq]

/-- Witness instantiating `dbscan_core_status_order_invariant` on the two
concrete orderings of the counterexample point set. -/
theorem dbscan_core_status_order_invariant_witness :
    dbscanPts1.Perm dbscanPts2 ∧
    dbscanPts1.getD 4 apDefault = dbscanPts2.getD 4 apDefault ∧
    (4 ≤ (regionQuery dbscanPts1 4 1).length ↔
      4 ≤ (regionQuery dbscanPts2 4 1).length) := by
  have hperm : dbscanPts1.Perm dbscanPts2 := by
    rw [← List.isPerm_iff]
    with_unfolding_all exact of_decide_eq_true rfl
  have hpt : dbscanPts1.getD 4 apDefault = dbscanPts2.getD 4 apDefault := by
    with_unfolding_all exact of_decide_eq_true rfl
  exact ⟨hperm, hpt,
    dbscan_core_status_order_invariant dbscanPts1 dbscanPts2 hperm 1 4 4 4 hpt⟩

/-! ### C7 — promotion of significant noise points -/

theorem mem_of_getLast? {α : Type} {l : List α} {a : α}
    (h : l.getLast? = some a) : a ∈ l := by
  rw [List.getLast?_eq_getElem?] at h
  obtain ⟨hlt, hval⟩ := List.getElem?_eq_some_iff.mp h
  exact hval ▸ List.getElem_mem hlt

/-- Non-negative labels are never overwritten. -/
def LabelsMono (l1 l2 : List Int) : Prop :=
  ∀ k, 0 ≤ l1.getD k 0 → l2.getD k 0 = l1.getD k 0

theorem labelsMono_refl (l : List Int) : LabelsMono l l := fun _ _ => rfl

theorem labelsMono_trans {l1 l2 l3 : List Int} (h12 : LabelsMono l1 l2)
    (h23 : LabelsMono l2 l3) : LabelsMono l1 l3 := by
  intro k hk
  rw [h23 k (by rw [h12 k hk]; exact hk), h12 k hk]

/-- Setting a negative-labelled slot preserves non-negative labels. -/
theorem labelsMono_set (l : List Int) (j : Nat) (c : Int)
    (hneg : l.getD j 0 < 0) : LabelsMono l (l.set j c) := by
  intro k hk
  by_cases hkj : j = k
  · subst hkj; omega
  · exact getD_set_ne _ _ _ _ _ hkj

theorem pushNeighbors_labels (st : ExpSt) (nbrs : List Nat) :
    (pushNeighbors st nbrs).labels = st.labels := by
  rw [pushNeighbors]
  induction nbrs generalizing st with
  | nil => rfl
  | cons a t ih =>
      rw [List.foldl_cons]
      by_cases h : (st.labels.getD a 0 = -1 ∨ st.labels.getD a 0 = -2) ∧ a ∉ st.seen
      · rw [if_pos h, ih]
      · rw [if_neg h, ih]

theorem pushNeighbors_acc (st : ExpSt) (nbrs : List Nat) :
    (pushNeighbors st nbrs).acc = st.acc := by
  rw [pushNeighbors]
  induction nbrs generalizing st with
  | nil => rfl
  | cons a t ih =>
      rw [List.foldl_cons]
      by_cases h : (st.labels.getD a 0 = -1 ∨ st.labels.getD a 0 = -2) ∧ a ∉ st.seen
      · rw [if_pos h, ih]
      · rw [if_neg h, ih]

theorem pushNeighbors_stack_subset {n : Nat} (st : ExpSt) (nbrs : List Nat)
    (hn : ∀ k ∈ nbrs, k < n) (hst : ∀ k ∈ st.stack, k < n) :
    ∀ k ∈ (pushNeighbors st nbrs).stack, k < n := by
  rw [pushNeighbors]
  induction nbrs generalizing st with
  | nil => exact hst
  | cons a t ih =>
      rw [List.foldl_cons]
      by_cases h : (st.labels.getD a 0 = -1 ∨ st.labels.getD a 0 = -2) ∧ a ∉ st.seen
      · rw [if_pos h]
        refine ih _ (fun k hk => hn k (List.mem_cons_of_mem a hk)) ?_
        intro k hk
        rcases List.mem_append.mp hk with hk | hk
        · exact hst k hk
        · rw [List.mem_singleton] at hk
          rw [hk]
          exact hn a (List.mem_cons_self a t)
      · rw [if_neg h]
        exact ih _ (fun k hk => hn k (List.mem_cons_of_mem a hk)) hst

theorem regionQuery_subset (pts : List AnomalyPoint) (i : Nat) (eps : ℚ) :
    ∀ k ∈ regionQuery pts i eps, k < pts.length := by
  intro k hk
  exact List.mem_range.mp (List.mem_of_mem_filter hk)

/-- Expansion-loop invariant: label array size, stack indices in range, and
every accumulated cluster point is a point of the input whose label is the
cluster id. -/
def ExpInv (pts : List AnomalyPoint) (cid : Int) (st : ExpSt) : Prop :=
  st.labels.length = pts.length ∧
  (∀ k ∈ st.stack, k < pts.length) ∧
  (∀ x ∈ st.acc, ∃ k, k < pts.length ∧ pts.getD k apDefault = x ∧
    st.labels.getD k 0 = cid)

/-- The updated expansion state shared by the `-2` and `-1` branches of
`expandStep`. -/
def expUpd (pts : List AnomalyPoint) (cid : Int) (st : ExpSt) (j : Nat) : ExpSt :=
  { st with
    labels := st.labels.set j cid,
    acc := st.acc ++ [pts.getD j apDefault] }

/-- Case analysis of `expandStep` for a non-negative cluster id: a noise
point is promoted to a border point, an unvisited point is labelled (and
expanded when it is a core point), and anything else is untouched. -/
theorem expandStep_eq (pts : List AnomalyPoint) (eps : ℚ) (minPts : Nat)
    (cid : Int) (st : ExpSt) (j : Nat) (hcid : 0 ≤ cid) :
    (st.labels.getD j 0 = -2 ∧
      expandStep pts eps minPts cid st j = expUpd pts cid st j) ∨
    (st.labels.getD j 0 = -1 ∧
      (expandStep pts eps minPts cid st j =
          pushNeighbors (expUpd pts cid st j) (regionQuery pts j eps) ∨
        expandStep pts eps minPts cid st j = expUpd pts cid st j)) ∨
    (st.labels.getD j 0 ≠ -2 ∧ st.labels.getD j 0 ≠ -1 ∧
      expandStep pts eps minPts cid st j = st) := by
  rw [expandStep]
  by_cases h2 : st.labels.getD j 0 = -2
  · left
    refine ⟨h2, ?_⟩
    rw [if_pos h2]
    have hj : j < st.labels.length := by
      by_contra hj
      rw [List.getD_eq_getElem?_getD, List.getElem?_eq_none (by omega)] at h2
      exact absurd h2 (by decide)
    have hval : (expUpd pts cid st j).labels.getD j 0 = cid := by
      rw [expUpd]
      exact getD_set_self _ _ _ _ hj
    have hcond : (expUpd pts cid st j).labels.getD j 0 ≠ -1 := by
      rw [hval]; omega
    exact if_pos hcond
  · rw [if_neg h2]
    by_cases h1 : st.labels.getD j 0 = -1
    · right; left
      refine ⟨h1, ?_⟩
      rw [if_neg (by rw [h1]; exact fun h => h rfl)]
      dsimp only
      by_cases hcore : minPts ≤ (regionQuery pts j eps).length
      · rw [if_pos hcore]
        left
        rfl
      · rw [if_neg hcore]
        right
        rfl
    · right; right
      refine ⟨h2, h1, ?_⟩
      rw [if_pos (fun h => h1 h)]

theorem expUpd_labels_getD_neg (pts : List AnomalyPoint) (cid : Int)
    (st : ExpSt) (j : Nat) (hneg : st.labels.getD j 0 < 0) :
    LabelsMono st.labels (expUpd pts cid st j).labels := by
  rw [expUpd]
  exact labelsMono_set _ _ _ hneg

theorem expandStep_mono (pts : List AnomalyPoint) (eps : ℚ) (minPts : Nat)
    (cid : Int) (st : ExpSt) (j : Nat) (hcid : 0 ≤ cid) :
    LabelsMono st.labels (expandStep pts eps minPts cid st j).labels := by
  rcases expandStep_eq pts eps minPts cid st j hcid with
    ⟨h2, heq⟩ | ⟨h1, heq | heq⟩ | ⟨-, -, heq⟩
  · rw [heq]
    exact expUpd_labels_getD_neg pts cid st j (by omega)
  · rw [heq, pushNeighbors_labels]
    exact expUpd_labels_getD_neg pts cid st j (by omega)
  · rw [heq]
    exact expUpd_labels_getD_neg pts cid st j (by omega)
  · rw [heq]
    exact labelsMono_refl _

theorem expUpd_expInv (pts : List AnomalyPoint) (eps : ℚ) (cid : Int)
    (st : ExpSt) (j : Nat) (hcid : 0 ≤ cid) (hj : j < pts.length)
    (hneg : st.labels.getD j 0 < 0) (hinv : ExpInv pts cid st) :
    ExpInv pts cid (expUpd pts cid st j) := by
  obtain ⟨hlen, hstk, hacc⟩ := hinv
  rw [expUpd]
  refine ⟨by rw [List.length_set]; exact hlen, hstk, ?_⟩
  intro x hx
  rcases List.mem_append.mp hx with hx | hx
  · obtain ⟨k, hk, hxk, hlab⟩ := hacc x hx
    have hkj : j ≠ k := by
      rintro rfl
      omega
    exact ⟨k, hk, hxk, by rw [getD_set_ne _ _ _ _ _ hkj]; exact hlab⟩
  · rw [List.mem_singleton] at hx
    subst hx
    exact ⟨j, hj, rfl, getD_set_self _ _ _ _ (by omega)⟩

theorem expandStep_expInv (pts : List AnomalyPoint) (eps : ℚ) (minPts : Nat)
    (cid : Int) (st : ExpSt) (j : Nat) (hcid : 0 ≤ cid) (hj : j < pts.length)
    (hinv : ExpInv pts cid st) :
    ExpInv pts cid (expandStep pts eps minPts cid st j) := by
  rcases expandStep_eq pts eps minPts cid st j hcid with
    ⟨h2, heq⟩ | ⟨h1, heq | heq⟩ | ⟨-, -, heq⟩
  · rw [heq]
    exact expUpd_expInv pts eps cid st j hcid hj (by omega) hinv
  · rw [heq]
    have hupd := expUpd_expInv pts eps cid st j hcid hj (by omega) hinv
    obtain ⟨hlen, hstk, hacc⟩ := hupd
    refine ⟨?_, ?_, ?_⟩
    · rw [pushNeighbors_labels]; exact hlen
    · exact pushNeighbors_stack_subset _ _ (regionQuery_subset pts j eps) hstk
    · intro x hx
      rw [pushNeighbors_acc] at hx
      obtain ⟨k, hk, hxk, hlab⟩ := hacc x hx
      exact ⟨k, hk, hxk, by rw [pushNeighbors_labels]; exact hlab⟩
  · rw [heq]
    exact expUpd_expInv pts eps cid st j hcid hj (by omega) hinv
  · rw [heq]
    exact hinv

theorem expandLoop_mono (pts : List AnomalyPoint) (eps : ℚ) (minPts : Nat)
    (cid : Int) (hcid : 0 ≤ cid) :
    ∀ fuel st, LabelsMono st.labels (expandLoop pts eps minPts cid fuel st).labels := by
  intro fuel
  induction fuel with
  | zero => intro st; exact labelsMono_refl _
  | succ fuel ih =>
      intro st
      rw [expandLoop]
      cases hl : st.stack.getLast? with
      | none => exact labelsMono_refl _
      | some j =>
          dsimp only
          have hstep := expandStep_mono pts eps minPts cid
            { st with stack := st.stack.dropLast } j hcid
          exact labelsMono_trans hstep (ih _)

theorem expandLoop_expInv (pts : List AnomalyPoint) (eps : ℚ) (minPts : Nat)
    (cid : Int) (hcid : 0 ≤ cid) :
    ∀ fuel st, ExpInv pts cid st →
      ExpInv pts cid (expandLoop pts eps minPts cid fuel st) := by
  intro fuel
  induction fuel with
  | zero => intro st h; exact h
  | succ fuel ih =>
      intro st h
      rw [expandLoop]
      cases hl : st.stack.getLast? with
      | none => exact h
      | some j =>
          dsimp only
          have hj : j < pts.length := h.2.1 j (mem_of_getLast? hl)
          have hst : ExpInv pts cid { st with stack := st.stack.dropLast } := by
            obtain ⟨hlen, hstk, hacc⟩ := h
            exact ⟨hlen, fun k hk =>
              hstk k ((List.dropLast_sublist st.stack).subset hk), hacc⟩
          exact ih _ (expandStep_expInv pts eps minPts cid _ j hcid hj hst)

/-- Main-loop invariant: label array size, non-negative id counter, and
every committed cluster's points are input points whose final labels carry
the cluster's (non-negative) id. -/
def MainInv (pts : List AnomalyPoint) (st : DbSt) : Prop :=
  st.labels.length = pts.length ∧
  0 ≤ st.nextId ∧
  ∀ c ∈ st.clusters, 0 ≤ c.id ∧
    ∀ x ∈ c.points, ∃ k, k < pts.length ∧ pts.getD k apDefault = x ∧
      st.labels.getD k 0 = c.id

theorem dbscanStep_mainInv (pts : List AnomalyPoint) (eps : ℚ) (minPts : Nat)
    (ty : AnomalyType) (st : DbSt) (i : Nat) (hi : i < pts.length)
    (hinv : MainInv pts st) : MainInv pts (dbscanStep pts eps minPts ty st i) := by
  obtain ⟨hlen, hnid, hcl⟩ := hinv
  rw [dbscanStep]
  by_cases hvis : st.labels.getD i 0 ≠ -1
  · rw [if_pos hvis]
    exact ⟨hlen, hnid, hcl⟩
  · rw [if_neg hvis]
    have hlab1 : st.labels.getD i 0 = -1 := by
      by_contra h
      exact hvis h
    by_cases hnoise : (regionQuery pts i eps).length < minPts
    · rw [if_pos hnoise]
      refine ⟨by rw [List.length_set]; exact hlen, hnid, ?_⟩
      intro c hc
      obtain ⟨hid, hpts⟩ := hcl c hc
      refine ⟨hid, ?_⟩
      intro x hx
      obtain ⟨k, hk, hxk, hlab⟩ := hpts x hx
      have hki : i ≠ k := by
        rintro rfl
        omega
      exact ⟨k, hk, hxk, by rw [getD_set_ne _ _ _ _ _ hki]; exact hlab⟩
    · rw [if_neg hnoise]
      dsimp only
      set est0 : ExpSt :=
        { labels := st.labels.set i st.nextId, seen := regionQuery pts i eps,
          stack := regionQuery pts i eps,
          acc := [pts.getD i apDefault] } with hest0
      set est := expandLoop pts eps minPts st.nextId (pts.length + 1) est0 with hest
      have hinv0 : ExpInv pts st.nextId est0 := by
        refine ⟨by rw [hest0]; dsimp only; rw [List.length_set]; exact hlen,
          ?_, ?_⟩
        · rw [hest0]
          exact regionQuery_subset pts i eps
        · rw [hest0]
          intro x hx
          dsimp only at hx
          rw [List.mem_singleton] at hx
          subst hx
          exact ⟨i, hi, rfl, getD_set_self _ _ _ _ (by omega)⟩
      have hinvF : ExpInv pts st.nextId est :=
        expandLoop_expInv pts eps minPts st.nextId hnid _ _ hinv0
      have hmonoF : LabelsMono est0.labels est.labels :=
        expandLoop_mono pts eps minPts st.nextId hnid _ _
      refine ⟨hinvF.1, by dsimp only; omega, ?_⟩
      intro c hc
      rcases List.mem_append.mp hc with hc | hc
      · obtain ⟨hid, hpts⟩ := hcl c hc
        refine ⟨hid, ?_⟩
        intro x hx
        obtain ⟨k, hk, hxk, hlab⟩ := hpts x hx
        have hki : i ≠ k := by
          rintro rfl
          omega
        have h0 : est0.labels.getD k 0 = c.id := by
          rw [hest0]
          dsimp only
          rw [getD_set_ne _ _ _ _ _ hki]
          exact hlab
        refine ⟨k, hk, hxk, ?_⟩
        rw [hmonoF k (by rw [h0]; omega), h0]
      · rw [List.mem_singleton] at hc
        subst hc
        refine ⟨hnid, ?_⟩
        intro x hx
        have hx2 : x ∈ est.acc := hx
        obtain ⟨k, hk, hxk, hlab⟩ := hinvF.2.2 x hx2
        exact ⟨k, hk, hxk, hlab⟩

theorem dbscanMain_mainInv (pts : List AnomalyPoint) (eps : ℚ) (minPts : Nat)
    (ty : AnomalyType) : MainInv pts (dbscanMain pts eps minPts ty) := by
  rw [dbscanMain]
  have key : ∀ (l : List Nat), (∀ i ∈ l, i < pts.length) → ∀ st,
      MainInv pts st → MainInv pts (l.foldl (dbscanStep pts eps minPts ty) st) := by
    intro l
    induction l with
    | nil => intro _ st h; exact h
    | cons a t ih =>
        intro hall st h
        rw [List.foldl_cons]
        exact ih (fun k hk => hall k (List.mem_cons_of_mem a hk)) _
          (dbscanStep_mainInv pts eps minPts ty st a
            (hall a (List.mem_cons_self a t)) h)
  refine key _ (fun i hi => List.mem_range.mp hi) _ ⟨by simp, by dsimp only; omega, ?_⟩
  intro c hc
  exact absurd hc (List.not_mem_nil c)

/-! Promotion-phase lemmas. -/

theorem prom_mem_preserved (pts : List AnomalyPoint) (ty : AnomalyType)
    (labels : List Int) (l : List Nat) (p : List AnomalyCluster × Int)
    (c : AnomalyCluster) (hc : c ∈ p.1) :
    c ∈ (l.foldl (promStep pts ty labels) p).1 := by
  induction l generalizing p with
  | nil => exact hc
  | cons a t ih =>
      rw [List.foldl_cons]
      refine ih _ ?_
      rw [promStep]
      by_cases h : labels.getD a 0 = -2 ∧ 5 < |(pts.getD a apDefault).deviation|
      · rw [if_pos h]
        exact List.mem_append_left _ hc
      · rw [if_neg h]
        exact hc

theorem prom_adds_singleton (pts : List AnomalyPoint) (ty : AnomalyType)
    (labels : List Int) (l : List Nat) (p : List AnomalyCluster × Int)
    (i : Nat) (hil : i ∈ l)
    (hcond : labels.getD i 0 = -2 ∧ 5 < |(pts.getD i apDefault).deviation|) :
    ∃ c ∈ (l.foldl (promStep pts ty labels) p).1,
      c.points = [pts.getD i apDefault] := by
  induction l generalizing p with
  | nil => exact absurd hil (List.not_mem_nil i)
  | cons a t ih =>
      rw [List.foldl_cons]
      rcases List.mem_cons.mp hil with rfl | hit
      · refine ⟨buildCluster p.2 ty [pts.getD i apDefault], ?_, rfl⟩
        refine prom_mem_preserved pts ty labels t _ _ ?_
        rw [promStep, if_pos hcond]
        exact List.mem_append_right _ (List.mem_singleton.mpr rfl)
      · exact ih _ hit

theorem prom_origin (pts : List AnomalyPoint) (ty : AnomalyType)
    (labels : List Int) (l : List Nat) (p : List AnomalyCluster × Int)
    (c : AnomalyCluster) (hc : c ∈ (l.foldl (promStep pts ty labels) p).1) :
    c ∈ p.1 ∨ ∃ i ∈ l, labels.getD i 0 = -2 ∧
      5 < |(pts.getD i apDefault).deviation| ∧
      c.points = [pts.getD i apDefault] := by
  induction l generalizing p with
  | nil => exact Or.inl hc
  | cons a t ih =>
      rw [List.foldl_cons] at hc
      rcases ih _ hc with hcp | ⟨i, hit, hcond⟩
      · rw [promStep] at hcp
        by_cases h : labels.getD a 0 = -2 ∧ 5 < |(pts.getD a apDefault).deviation|
        · rw [if_pos h] at hcp
          rcases List.mem_append.mp hcp with hcp | hcp
          · exact Or.inl hcp
          · rw [List.mem_singleton] at hcp
            subst hcp
            exact Or.inr ⟨a, List.mem_cons_self a t, h.1, h.2, rfl⟩
        · rw [if_neg h] at hcp
          exact Or.inl hcp
      · exact Or.inr ⟨i, List.mem_cons_of_mem a hit, hcond⟩

/-- **C7.**  A point left labelled as noise by the main DBSCAN loop is
promoted to its own singleton cluster exactly when its absolute deviation
exceeds 5 µm; noise points at or below 5 µm appear in no returned cluster
(the input is a set, i.e. duplicate-free). -/
theorem dbscan_noise_promotion (pts : List AnomalyPoint) (eps : ℚ)
    (minPts : Nat) (ty : AnomalyType) (hnd : pts.Nodup) (i : Nat)
    (hi : i < pts.length)
    (hnoise : (dbscanLabels pts eps minPts ty).getD i 0 = -2) :
    (5 < |(pts.getD i apDefault).deviation| →
      ∃ c ∈ dbscan pts eps minPts ty, c.points = [pts.getD i apDefault]) ∧
    (|(pts.getD i apDefault).deviation| ≤ 5 →
      ∀ c ∈ dbscan pts eps minPts ty, pts.getD i apDefault ∉ c.points) := by
  have hn0 : ¬ pts.length = 0 := by omega
  have hlabels : dbscanLabels pts eps minPts ty =
      (dbscanMain pts eps minPts ty).labels := rfl
  have hclusters : dbscan pts eps minPts ty =
      ((List.range pts.length).foldl
        (promStep pts ty (dbscanMain pts eps minPts ty).labels)
        ((dbscanMain pts eps minPts ty).clusters,
          (dbscanMain pts eps minPts ty).nextId)).1 := by
    rw [dbscan, if_neg hn0]
    rfl
  rw [hlabels] at hnoise
  have hmain := dbscanMain_mainInv pts eps minPts ty
  have hgetD_inj : ∀ k, k < pts.length → pts.getD k apDefault = pts.getD i apDefault →
      k = i := by
    intro k hk heq
    rw [List.getD_eq_getElem?_getD, List.getElem?_eq_getElem hk,
      List.getD_eq_getElem?_getD, List.getElem?_eq_getElem hi] at heq
    exact (hnd.getElem_inj_iff.mp heq)
  constructor
  · intro hdev
    rw [hclusters]
    exact prom_adds_singleton pts ty _ _ _ i (List.mem_range.mpr hi)
      ⟨hnoise, hdev⟩
  · intro hdev c hc hmem
    rw [hclusters] at hc
    rcases prom_origin pts ty _ _ _ c hc with hcm | ⟨k, hkl, hk2, hk5, hcpts⟩
    · obtain ⟨hid, hpts⟩ := hmain.2.2 c hcm
      obtain ⟨k, hk, hxk, hlab⟩ := hpts _ hmem
      have hki : k = i := hgetD_inj k hk hxk
      subst hki
      omega
    · rw [hcpts, List.mem_singleton] at hmem
      have hk : k < pts.length := List.mem_range.mp hkl
      have hki : k = i := hgetD_inj k hk hmem.symm
      subst hki
      exact absurd hk5 (not_lt.mpr hdev)

/-- Witness instantiating `dbscan_noise_promotion`: a single isolated dip
point with deviation −6 µm is noise (`minPoints = 4 > 1` neighbor) and gets
promoted to a singleton cluster. -/
def noiseCexPts : List AnomalyPoint := [⟨⟨0, 0, 0⟩, -6, AnomalyType.dip, 0, 0, 0, 0⟩]

theorem dbscan_noise_promotion_witness :
    noiseCexPts.Nodup ∧ 0 < noiseCexPts.length ∧
    (dbscanLabels noiseCexPts 1 4 AnomalyType.dip).getD 0 0 = -2 ∧
    ((5 < |(noiseCexPts.getD 0 apDefault).deviation| →
      ∃ c ∈ dbscan noiseCexPts 1 4 AnomalyType.dip,
        c.points = [noiseCexPts.getD 0 apDefault]) ∧
    (|(noiseCexPts.getD 0 apDefault).deviation| ≤ 5 →
      ∀ c ∈ dbscan noiseCexPts 1 4 AnomalyType.dip,
        noiseCexPts.getD 0 apDefault ∉ c.points)) := by
  have hnd : noiseCexPts.Nodup := List.nodup_singleton _
  have hi : 0 < noiseCexPts.length := by
    rw [noiseCexPts, List.length_singleton]
    omega
  have hnoise : (dbscanLabels noiseCexPts 1 4 AnomalyType.dip).getD 0 0 = -2 := by
    with_unfolding_all exact of_decide_eq_true rfl
  exact ⟨hnd, hi, hnoise,
    dbscan_noise_promotion noiseCexPts 1 4 AnomalyType.dip hnd 0 hi hnoise⟩

/-! ## SphereFitter (`SphereFitter.ts`)

The algebraic fit solves the normal equations `AᵗA·p = AᵗB` with
`A[i] = [xᵢ, yᵢ, zᵢ, 1]` and `B[i] = xᵢ²+yᵢ²+zᵢ²`; on a singular system the
source falls back to `pseudoInverse(A)·B` from the external `ml-matrix`
library.  The Moore–Penrose least-squares solution also satisfies the normal
equations, which is the only property used below, so the fallback is
modelled as a choice of a normal-equations solution. -/

/-- Row `[x, y, z, 1]` of the design matrix. -/
noncomputable def sphereRow (p : Vec3) : Fin 4 → ℝ :=
  ![(p.x : ℝ), (p.y : ℝ), (p.z : ℝ), 1]

/-- Right-hand side entry `x² + y² + z²`. -/
noncomputable def sphereSq (p : Vec3) : ℝ :=
  (p.x : ℝ) * (p.x : ℝ) + (p.y : ℝ) * (p.y : ℝ) + (p.z : ℝ) * (p.z : ℝ)

/-- The normal matrix `AᵗA`. -/
noncomputable def normalMat (pts : List Vec3) : Matrix (Fin 4) (Fin 4) ℝ :=
  Matrix.of fun a b => (pts.map (fun p => sphereRow p a * sphereRow p b)).sum

/-- The normal right-hand side `AᵗB`. -/
noncomputable def normalRhs (pts : List Vec3) (a : Fin 4) : ℝ :=
  (pts.map (fun p => sphereRow p a * sphereSq p)).sum

open Classical in
/-- Modelled from the spec: the `pseudoInverse` fallback of the external
`ml-matrix` library returns the minimum-norm least-squares solution of
`A·p ≈ B`, which satisfies the normal equations; it is modelled as a choice
of a normal-equations solution (zero if none existed, which cannot occur). -/
noncomputable def pseudoSolve (pts : List Vec3) : Fin 4 → ℝ :=
  if h : ∃ v, (normalMat pts).mulVec v = normalRhs pts then h.choose else 0

open Classical in
/-- The solution vector `[a, b, c, d]` of `fitSphere` (lines 39-56):
`solve(AtA, AtB)` when the system is regular, the pseudo-inverse fallback
otherwise. -/
noncomputable def sphereSolve (pts : List Vec3) : Fin 4 → ℝ :=
  if (normalMat pts).det ≠ 0 then (normalMat pts)⁻¹.mulVec (normalRhs pts)
  else pseudoSolve pts

/-- The radicand `d + x₀² + y₀² + z₀²` of the radius computation
(line 61). -/
noncomputable def radiusArg (pts : List Vec3) : ℝ :=
  sphereSolve pts 3 + (sphereSolve pts 0 / 2) * (sphereSolve pts 0 / 2) +
    (sphereSolve pts 1 / 2) * (sphereSolve pts 1 / 2) +
    (sphereSolve pts 2 / 2) * (sphereSolve pts 2 / 2)

/-- `SphereFitResult` of `types.ts`. -/
structure SphereFitResult where
  center : ℝ × ℝ × ℝ
  radius : ℝ
  rmsError : ℝ
  maxError : ℝ
  residuals : List ℝ

/-- Distance of a point to a center given by three coordinates. -/
noncomputable def distTo (p : Vec3) (x0 y0 z0 : ℝ) : ℝ :=
  Real.sqrt (((p.x : ℝ) - x0) * ((p.x : ℝ) - x0) +
    ((p.y : ℝ) - y0) * ((p.y : ℝ) - y0) + ((p.z : ℝ) - z0) * ((p.z : ℝ) - z0))

/-- `fitSphere(positions, vertexCount)` (lines 22-88).  Note: no clamp on
the radicand (compare line 61 with line 157 of the robust variant). -/
noncomputable def fitSphere (pts : List Vec3) : SphereFitResult :=
  let sol := sphereSolve pts
  let x0 := sol 0 / 2
  let y0 := sol 1 / 2
  let z0 := sol 2 / 2
  let radius := Real.sqrt (sol 3 + x0 * x0 + y0 * y0 + z0 * z0)
  let residuals := pts.map (fun p => distTo p x0 y0 z0 - radius)
  { center := (x0, y0, z0),
    radius := radius,
    rmsError := Real.sqrt ((residuals.map (fun r => r * r)).sum / pts.length),
    maxError := residuals.foldl (fun m r => max m |r|) 0,
    residuals := residuals }

/-- Tukey's bisquare weight (lines 109-119): `(1-u²)²` inside the cutoff
`3σ`, zero outside. -/
noncomputable def tukeyWeight (sigma r : ℝ) : ℝ :=
  if |r| < 3 * sigma then
    (1 - (|r| / (3 * sigma)) * (|r| / (3 * sigma))) *
      (1 - (|r| / (3 * sigma)) * (|r| / (3 * sigma)))
  else 0

open Classical in
/-- One IRLS iteration of `fitSphereRobust` (lines 104-188): re-weight, do a
weighted normal-equations solve (`none` when it is singular, i.e. `solve`
throws and the source breaks out of the loop), recompute residuals and the
weighted RMS, and clamp the radicand (line 157). -/
noncomputable def robustIter (pts : List Vec3) (prev : SphereFitResult) :
    Option SphereFitResult :=
  let sigma := max prev.rmsError (1 / 1000000)
  let weights := prev.residuals.map (fun r => tukeyWeight sigma r)
  let rows := pts.zip weights
  let M : Matrix (Fin 4) (Fin 4) ℝ :=
    Matrix.of fun a b =>
      (rows.map (fun pw => pw.2 * sphereRow pw.1 a * sphereRow pw.1 b)).sum
  let rhs : Fin 4 → ℝ :=
    fun a => (rows.map (fun pw => pw.2 * sphereRow pw.1 a * sphereSq pw.1)).sum
  if M.det = 0 then none
  else
    let sol := M⁻¹.mulVec rhs
    let x0 := sol 0 / 2
    let y0 := sol 1 / 2
    let z0 := sol 2 / 2
    let radius := Real.sqrt (max 0 (sol 3 + x0 * x0 + y0 * y0 + z0 * z0))
    let residuals := pts.map (fun p => distTo p x0 y0 z0 - radius)
    let kept := (residuals.zip weights).filter (fun rw => decide ((1:ℝ)/100 < rw.2))
    some
      { center := (x0, y0, z0),
        radius := radius,
        rmsError := Real.sqrt ((kept.map (fun rw => rw.1 * rw.1)).sum /
          max 1 (kept.length : ℝ)),
        maxError := residuals.foldl (fun m r => max m |r|) 0,
        residuals := residuals }

/-- The `for (let iter = 0; ...)` loop with `break`-on-singularity
semantics. -/
noncomputable def robustLoop (pts : List Vec3) : Nat → SphereFitResult →
    SphereFitResult
  | 0, r => r
  | k + 1, r =>
      match robustIter pts r with
      | none => r
      | some r2 => robustLoop pts k r2

/-- `fitSphereRobust(positions, vertexCount, iterations)` (lines 95-191). -/
noncomputable def fitSphereRobust (pts : List Vec3) (iterations : Nat) :
    SphereFitResult :=
  robustLoop pts iterations (fitSphere pts)

/-! ### C6 — non-negativity of the radius radicand -/

theorem list_sum_map_add {α : Type} (l : List α) (f g : α → ℝ) :
    (l.map (fun x => f x + g x)).sum = (l.map f).sum + (l.map g).sum := by
  induction l with
  | nil => simp
  | cons a t ih => simp [ih]; ring

theorem list_sum_map_sub {α : Type} (l : List α) (f g : α → ℝ) :
    (l.map (fun x => f x - g x)).sum = (l.map f).sum - (l.map g).sum := by
  induction l with
  | nil => simp
  | cons a t ih => simp [ih]; ring

theorem list_sum_map_const_add {α : Type} (l : List α) (f : α → ℝ) (c : ℝ) :
    (l.map (fun x => f x + c)).sum = (l.map f).sum + l.length * c := by
  induction l with
  | nil => simp
  | cons a t ih => simp [ih]; ring

theorem list_sum_map_mul_right {α : Type} (l : List α) (f : α → ℝ) (c : ℝ) :
    (l.map f).sum * c = (l.map (fun x => f x * c)).sum := by
  induction l with
  | nil => simp
  | cons a t ih => simp [← ih]; ring

/-- Either the solution vector satisfies the normal equations, or (in the
impossible no-solution fallback case) it is zero. -/
theorem sphereSolve_cases (pts : List Vec3) :
    (normalMat pts).mulVec (sphereSolve pts) = normalRhs pts ∨
      sphereSolve pts = 0 := by
  rw [sphereSolve]
  by_cases hdet : (normalMat pts).det ≠ 0
  · rw [if_pos hdet]
    left
    rw [Matrix.mulVec_mulVec, Matrix.mul_nonsing_inv _ (isUnit_iff_ne_zero.mpr hdet),
      Matrix.one_mulVec]
  · rw [if_neg hdet, pseudoSolve]
    by_cases hex : ∃ v, (normalMat pts).mulVec v = normalRhs pts
    · rw [dif_pos hex]
      exact Or.inl hex.choose_spec
    · rw [dif_neg hex]
      exact Or.inr rfl

/-- The fourth normal equation in scalar form. -/
theorem normalEq_fourth (pts : List Vec3) (sol : Fin 4 → ℝ)
    (h : (normalMat pts).mulVec sol = normalRhs pts) :
    (pts.map (fun p =>
      (p.x : ℝ) * sol 0 + (p.y : ℝ) * sol 1 + (p.z : ℝ) * sol 2 + sol 3)).sum =
      (pts.map sphereSq).sum := by
  have h3 := congrFun h 3
  rw [Matrix.mulVec, Matrix.dotProduct] at h3
  rw [Fin.sum_univ_four] at h3
  have hrow3 : ∀ p : Vec3, sphereRow p 3 = 1 := by
    intro p
    simp [sphereRow]
  have hM : ∀ b : Fin 4, normalMat pts 3 b = (pts.map (fun p => sphereRow p b)).sum := by
    intro b
    show (pts.map (fun p => sphereRow p 3 * sphereRow p b)).sum = _
    congr 1
    refine List.map_congr_left ?_
    intro p _
    rw [hrow3 p, one_mul]
  have hrhs : normalRhs pts 3 = (pts.map sphereSq).sum := by
    rw [normalRhs]
    congr 1
    refine List.map_congr_left ?_
    intro p _
    rw [hrow3 p, one_mul]
  rw [hM 0, hM 1, hM 2, hM 3, hrhs] at h3
  rw [list_sum_map_mul_right pts _ (sol 0), list_sum_map_mul_right pts _ (sol 1),
    list_sum_map_mul_right pts _ (sol 2), list_sum_map_mul_right pts _ (sol 3)]
    at h3
  rw [← list_sum_map_add pts _ _, ← list_sum_map_add pts _ _,
    ← list_sum_map_add pts _ _] at h3
  rw [← h3]
  congr 1
  refine List.map_congr_left ?_
  intro p _
  simp [sphereRow]

/-- The radicand equals the mean squared distance of the points to the
fitted center, hence is non-negative. -/
theorem radiusArg_nonneg (pts : List Vec3) (hn : 0 < pts.length) :
    0 ≤ radiusArg pts := by
  rcases sphereSolve_cases pts with h | h
  · set sol := sphereSolve pts with hsol
    have h4 := normalEq_fourth pts sol h
    set x0 := sol 0 / 2
    set y0 := sol 1 / 2
    set z0 := sol 2 / 2
    have key : (pts.map (fun p =>
        ((p.x : ℝ) - x0) * ((p.x : ℝ) - x0) + ((p.y : ℝ) - y0) * ((p.y : ℝ) - y0) +
          ((p.z : ℝ) - z0) * ((p.z : ℝ) - z0))).sum =
        pts.length * radiusArg pts := by
      have hpt : ∀ p ∈ pts,
          ((p.x : ℝ) - x0) * ((p.x : ℝ) - x0) + ((p.y : ℝ) - y0) * ((p.y : ℝ) - y0) +
            ((p.z : ℝ) - z0) * ((p.z : ℝ) - z0) =
          (sphereSq p - ((p.x : ℝ) * sol 0 + (p.y : ℝ) * sol 1 +
            (p.z : ℝ) * sol 2 + sol 3)) + radiusArg pts := by
        intro p _
        rw [radiusArg, sphereSq, ← hsol]
        ring
      rw [List.map_congr_left hpt, list_sum_map_const_add, list_sum_map_sub, h4]
      ring
    have hsum : 0 ≤ (pts.map (fun p =>
        ((p.x : ℝ) - x0) * ((p.x : ℝ) - x0) + ((p.y : ℝ) - y0) * ((p.y : ℝ) - y0) +
          ((p.z : ℝ) - z0) * ((p.z : ℝ) - z0))).sum := by
      refine List.sum_nonneg ?_
      intro x hx
      rw [List.mem_map] at hx
      obtain ⟨p, -, rfl⟩ := hx
      have h1 := mul_self_nonneg ((p.x : ℝ) - x0)
      have h2 := mul_self_nonneg ((p.y : ℝ) - y0)
      have h3 := mul_self_nonneg ((p.z : ℝ) - z0)
      linarith
    rw [key] at hsum
    have hpos : (0 : ℝ) < pts.length := by exact_mod_cast hn
    exact (mul_nonneg_iff_of_pos_left hpos).mp hsum
  · rw [radiusArg, h]
    norm_num

theorem fitSphere_radius_eq (pts : List Vec3) :
    (fitSphere pts).radius = Real.sqrt (radiusArg pts) := rfl

theorem fitSphere_center_eq (pts : List Vec3) :
    (fitSphere pts).center =
      (sphereSolve pts 0 / 2, sphereSolve pts 1 / 2, sphereSolve pts 2 / 2) := rfl

theorem robustIter_radius (pts : List Vec3) (prev r2 : SphereFitResult)
    (h : robustIter pts prev = some r2) :
    ∃ s, r2.radius = Real.sqrt (max 0 s) := by
  rw [robustIter] at h
  by_cases hdet : (Matrix.of fun a b =>
      ((pts.zip (prev.residuals.map (fun r =>
        tukeyWeight (max prev.rmsError (1 / 1000000)) r))).map
        (fun pw => pw.2 * sphereRow pw.1 a * sphereRow pw.1 b)).sum :
      Matrix (Fin 4) (Fin 4) ℝ).det = 0
  · rw [if_pos hdet] at h
    exact absurd h (by simp)
  · rw [if_neg hdet] at h
    have h2 := Option.some.inj h
    subst h2
    exact ⟨_, rfl⟩

/-- Every result reachable by the IRLS loop has a radius of the form
`√(max 0 s)`. -/
theorem robustLoop_radius (pts : List Vec3) :
    ∀ k r, (∃ s, r.radius = Real.sqrt (max 0 s)) →
      ∃ s, (robustLoop pts k r).radius = Real.sqrt (max 0 s) := by
  intro k
  induction k with
  | zero => intro r h; exact h
  | succ k ih =>
      intro r h
      rw [robustLoop]
      cases hit : robustIter pts r with
      | none => exact h
      | some r2 => exact ih r2 (robustIter_radius pts r r2 hit)

/-- **C6.**  The sphere fits compute the radius as
`√(d + x₀² + y₀² + z₀²)`: in exact arithmetic the radicand equals the mean
squared point-to-center distance and is therefore non-negative, so the
(extensionally no-op) clamp of the claim holds for `fitSphere` even though
only `fitSphereRobust` clamps textually (line 157), and both radii are
well-defined non-negative reals. -/
theorem sphere_radius_nonneg (pts : List Vec3) (hn : 0 < pts.length)
    (iterations : Nat) :
    (fitSphere pts).radius = Real.sqrt (radiusArg pts) ∧
    0 ≤ radiusArg pts ∧
    (fitSphere pts).radius = Real.sqrt (max 0 (radiusArg pts)) ∧
    0 ≤ (fitSphere pts).radius ∧
    (∃ s, (fitSphereRobust pts iterations).radius = Real.sqrt (max 0 s)) ∧
    0 ≤ (fitSphereRobust pts iterations).radius := by
  have harg := radiusArg_nonneg pts hn
  have hbase : (fitSphere pts).radius = Real.sqrt (max 0 (radiusArg pts)) := by
    rw [fitSphere_radius_eq, max_eq_right harg]
  have hrob := robustLoop_radius pts iterations (fitSphere pts)
    ⟨radiusArg pts, hbase⟩
  refine ⟨fitSphere_radius_eq pts, harg, hbase, ?_, hrob, ?_⟩
  · rw [fitSphere_radius_eq]
    exact Real.sqrt_nonneg _
  · obtain ⟨s, hs⟩ := hrob
    rw [fitSphereRobust, hs]
    exact Real.sqrt_nonneg _

/-- Witness instantiating `sphere_radius_nonneg` at a concrete point set and
the default iteration count 5. -/
theorem sphere_radius_nonneg_witness :
    0 < ([⟨0, 0, 0⟩, ⟨1, 0, 0⟩, ⟨0, 1, 0⟩, ⟨0, 0, 1⟩] : List Vec3).length ∧
    (0 ≤ radiusArg [⟨0, 0, 0⟩, ⟨1, 0, 0⟩, ⟨0, 1, 0⟩, ⟨0, 0, 1⟩] ∧
      0 ≤ (fitSphere [⟨0, 0, 0⟩, ⟨1, 0, 0⟩, ⟨0, 1, 0⟩, ⟨0, 0, 1⟩]).radius ∧
      0 ≤ (fitSphereRobust [⟨0, 0, 0⟩, ⟨1, 0, 0⟩, ⟨0, 1, 0⟩, ⟨0, 0, 1⟩] 5).radius) := by
  have hn : 0 < ([⟨0, 0, 0⟩, ⟨1, 0, 0⟩, ⟨0, 1, 0⟩, ⟨0, 0, 1⟩] : List Vec3).length := by
    simp
  obtain ⟨-, h2, -, h4, -, h6⟩ :=
    sphere_radius_nonneg [⟨0, 0, 0⟩, ⟨1, 0, 0⟩, ⟨0, 1, 0⟩, ⟨0, 0, 1⟩] hn 5
  exact ⟨hn, h2, h4, h6⟩

/-! ## VolumeComputer (`part_003`) and the pipeline (`part_002`)

Geometry downstream of the sphere fit lives over ℝ (the fit center, the
radial projections and the stored square roots are irrational).
`THREE.Vector3` becomes `Vec3R`. -/

/-- Real-valued 3-vector (`THREE.Vector3`). -/
structure Vec3R where
  x : ℝ
  y : ℝ
  z : ℝ

/-- Coercion of an exact mesh-space vector into real geometry. -/
noncomputable def Vec3.toR (a : Vec3) : Vec3R := ⟨(a.x : ℝ), (a.y : ℝ), (a.z : ℝ)⟩

noncomputable def Vec3R.add (a b : Vec3R) : Vec3R := ⟨a.x + b.x, a.y + b.y, a.z + b.z⟩

noncomputable def Vec3R.sub (a b : Vec3R) : Vec3R := ⟨a.x - b.x, a.y - b.y, a.z - b.z⟩

noncomputable def Vec3R.dot (a b : Vec3R) : ℝ := a.x * b.x + a.y * b.y + a.z * b.z

noncomputable def Vec3R.cross (a b : Vec3R) : Vec3R :=
  ⟨a.y * b.z - a.z * b.y, a.z * b.x - a.x * b.z, a.x * b.y - a.y * b.x⟩

noncomputable def Vec3R.smul (q : ℝ) (a : Vec3R) : Vec3R := ⟨q * a.x, q * a.y, q * a.z⟩

/-- `THREE.Vector3.length`. -/
noncomputable def Vec3R.length (a : Vec3R) : ℝ := Real.sqrt (a.dot a)

/-- `THREE.Vector3.distanceTo`. -/
noncomputable def Vec3R.distanceTo (a b : Vec3R) : ℝ := (a.sub b).length

open Classical in
/-- `THREE.Vector3.normalize`: `divideScalar(length() || 1)` — the JS `||`
turns a zero length into a division by 1. -/
noncomputable def Vec3R.normalize (a : Vec3R) : Vec3R :=
  Vec3R.smul (1 / (if a.length = 0 then 1 else a.length)) a

/-- The fitted center as a real vector (`SphereFitResult.center`). -/
noncomputable def centerToVec3R (c : ℝ × ℝ × ℝ) : Vec3R := ⟨c.1, c.2.1, c.2.2⟩

open Classical in
/-- `projectOntoSphere(point, center, radius)` (VolumeComputer, lines
147-158): radial projection onto the reference sphere, with a degenerate
fallback for points at the center. -/
noncomputable def projectOntoSphere (point center : Vec3R) (radius : ℝ) : Vec3R :=
  let dir := point.sub center
  let len := dir.length
  if len < 1 / 1000000000000 then center.add ⟨radius, 0, 0⟩
  else center.add (dir.smul (radius / len))

/-- `signedTetraVolume(a, b, c, d)` (lines 160-176):
`(b-a) · ((c-a) × (d-a)) / 6`. -/
noncomputable def signedTetraVolume (a b c d : Vec3R) : ℝ :=
  (b.sub a).dot ((c.sub a).cross (d.sub a)) / 6

/-- `VolumeResult` of VolumeComputer.  The source's `Map` objects
(`clusterVolumes`, and the per-vertex cluster map below) are modelled as
association lists where a `set` prepends and `lookup` finds the most recent
entry, giving JS last-write-wins semantics. -/
structure VolumeResult where
  totalBumpVolume : ℝ
  totalDipVolume : ℝ
  totalWearVolume : ℝ
  bumpMass : ℝ
  dipMass : ℝ
  clusterVolumes : List (Int × ℝ)

open Classical in
/-- `computeDefectVolumes(meshData, sphereFit, vertexDeviations, clusters,
thresholdMicrons, density)` (lines 29-144).  Buffer reads use `getD`
defaults; as in the rest of the development the success-path values are
faithful for in-range buffers.  The source additionally writes each
cluster's volume back into the (aliased) `cluster.volume` field in place;
the embedded `AnomalyCluster` keeps its exact construction-time fields, so
that write-back is carried by the returned `clusterVolumes` association
(keyed by `cluster.id`, same values). -/
noncomputable def computeDefectVolumes (meshData : MeshData)
    (sphereFit : SphereFitResult) (vertexDeviations : List ℝ)
    (clusters : List AnomalyCluster) (thresholdMicrons density : ℝ) :
    VolumeResult :=
  let center := centerToVec3R sphereFit.center
  let vertexClusterMap : List (Nat × Int) :=
    clusters.foldl (fun m c => c.points.foldl
      (fun m2 p => (p.vertexIndex, c.id) :: m2) m) []
  let cvInit : List (Int × ℝ) := clusters.foldl (fun m c => (c.id, (0 : ℝ)) :: m) []
  let step := fun (acc : ℝ × ℝ × List (Int × ℝ)) (f : Nat) =>
    let i0 := meshData.indices.getD (3 * f) 0
    let i1 := meshData.indices.getD (3 * f + 1) 0
    let i2 := meshData.indices.getD (3 * f + 2) 0
    let d0 := vertexDeviations.getD i0 0
    let d1 := vertexDeviations.getD i1 0
    let d2 := vertexDeviations.getD i2 0
    let avgDev := (d0 + d1 + d2) / 3
    if |avgDev| ≤ thresholdMicrons then acc
    else
      let v0 := (meshData.positions.getD i0 v3zero).toR
      let v1 := (meshData.positions.getD i1 v3zero).toR
      let v2 := (meshData.positions.getD i2 v3zero).toR
      let s0 := projectOntoSphere v0 center sphereFit.radius
      let s1 := projectOntoSphere v1 center sphereFit.radius
      let s2 := projectOntoSphere v2 center sphereFit.radius
      let vol := signedTetraVolume v0 v1 v2 s0 + signedTetraVolume s0 v1 v2 s1 +
        signedTetraVolume s0 s1 v2 s2
      let acc2 : ℝ × ℝ × List (Int × ℝ) :=
        if 0 < avgDev then (acc.1 + |vol|, acc.2.1, acc.2.2)
        else (acc.1, acc.2.1 + |vol|, acc.2.2)
      match (vertexClusterMap.lookup i0).orElse (fun _ =>
        (vertexClusterMap.lookup i1).orElse (fun _ =>
          vertexClusterMap.lookup i2)) with
      | none => acc2
      | some cid =>
          (acc2.1, acc2.2.1,
            (cid, (acc2.2.2.lookup cid).getD 0 + |vol|) :: acc2.2.2)
  let final := (List.range meshData.faceCount).foldl step (0, 0, cvInit)
  { totalBumpVolume := final.1,
    totalDipVolume := final.2.1,
    totalWearVolume := final.1 + final.2.1,
    bumpMass := final.1 * density,
    dipMass := final.2.1 * density,
    clusterVolumes := final.2.2 }

/-- The wear-vector record returned by `computeWearVector`.  `maxDepth` is
`Math.abs(minDeviation)`, kept in `WithTop ℚ` like the cluster field it
reads (the `⊤` of an empty cluster stays `⊤` under `abs`). -/
structure WearVector where
  deepestPoint : Vec3R
  polePoint : Vec3R
  direction : Vec3R
  angle : ℝ
  distance : ℝ
  maxDepth : WithTop ℚ

/-- `computeWearVector(primaryWearZone, polePosition, sphereCenter, cupAxis)`
(VolumeComputer, lines 178-215); `sphereCenter` is accepted and unused, as
in the source. -/
noncomputable def computeWearVector (primaryWearZone : Option AnomalyCluster)
    (polePosition : Vec3R) (sphereCenter : Vec3R) (cupAxis : Vec3R) :
    Option WearVector :=
  match primaryWearZone with
  | none => none
  | some zone =>
      let deepest := zone.maxDeviationPoint.toR
      let pole := polePosition
      let direction := (deepest.sub pole).normalize
      let distance := deepest.distanceTo pole
      let angle := Real.arccos (max (-1) (min 1 (direction.dot cupAxis))) *
        (180 / Real.pi)
      some { deepestPoint := deepest, polePoint := pole, direction := direction,
             angle := angle, distance := distance,
             maxDepth := zone.minDeviation.map (fun q => |q|) }

/-- `SeparationResult` of `types.ts`. -/
structure SeparationResult where
  inner : MeshData
  outer : MeshData
  centroid : Vec3
  cupAxis : Vec3

/-- `AnalysisResults` of `types.ts`, restricted to the fields whose types
belong to embedded modules (the ellipsoid fit, the geodesic list and the
timing field are read and written only by stages outside this
development). -/
structure AnalysisResults where
  sphereFit : SphereFitResult
  geodesicCount : Nat
  totalAnomalyPoints : Nat
  bumpClusters : List AnomalyCluster
  dipClusters : List AnomalyCluster
  primaryWearZone : Option AnomalyCluster
  totalBumpVolume : ℝ
  totalDipVolume : ℝ
  totalWearVolume : ℝ
  wearVector : Option WearVector
  vertexCount : Nat
  faceCount : Nat

/-- `PipelineState` of `WearAnalysisPipeline` (part_002, lines 22-34),
restricted the same way (`ellipsoidFit` and `geodesics` are used only by
unembedded stages). -/
structure PipelineState where
  originalMesh : Option MeshData
  separation : Option SeparationResult
  trimResult : Option TrimResult
  workingMesh : Option MeshData
  graph : Option MeshGraphQ
  sphereFit : Option SphereFitResult
  poleVertex : Nat
  polePosition : Option Vec3R
  vertexDeviations : Option (List ℝ)
  results : Option AnalysisResults

/-- The constructor's initial state: every reference field null, pole 0. -/
def pipelineInitState : PipelineState :=
  { originalMesh := none, separation := none, trimResult := none,
    workingMesh := none, graph := none, sphereFit := none, poleVertex := 0,
    polePosition := none, vertexDeviations := none, results := none }

/-- `stepTrimRim(rimPercent)` (lines 116-126).  A step is embedded as
state-in, (state-out, outcome)-out: a JS method that throws leaves
`this.state` exactly as it was, so the thrown path returns the input state
paired with the error. -/
def stepTrimRim (st : PipelineState) (rimPercent : ℚ) :
    PipelineState × Except String TrimResult :=
  match st.separation with
  | none => (st, Except.error "Run face separation first")
  | some sep =>
      let tr := trimRim sep.inner sep.cupAxis rimPercent
      ({ st with trimResult := some tr, workingMesh := some tr.mesh },
        Except.ok tr)

/-- `stepComputeVolumes(thresholdMicrons, density)` (lines 245-276): guard
on `results`, then on `workingMesh`/`sphereFit`/`vertexDeviations`, then
write the three volume totals and (when the primary wear zone, the pole
position and the separation are all present) the wear vector. -/
noncomputable def stepComputeVolumes (st : PipelineState)
    (thresholdMicrons density : ℝ) : PipelineState × Except String Unit :=
  match st.results with
  | none => (st, Except.error "Run deviation analysis first")
  | some results =>
      match st.workingMesh, st.sphereFit, st.vertexDeviations with
      | some wm, some sf, some vd =>
          let allClusters := results.bumpClusters ++ results.dipClusters
          let volumeResult :=
            computeDefectVolumes wm sf vd allClusters thresholdMicrons density
          let results2 :=
            { results with totalBumpVolume := volumeResult.totalBumpVolume,
                           totalDipVolume := volumeResult.totalDipVolume,
                           totalWearVolume := volumeResult.totalWearVolume }
          let results3 :=
            match results2.primaryWearZone, st.polePosition, st.separation with
            | some pwz, some pp, some sep =>
                let wv := computeWearVector (some pwz) pp
                  (centerToVec3R sf.center) sep.cupAxis.toR
                { results2 with wearVector := wv }
            | _, _, _ => results2
          ({ st with results := some results3 }, Except.ok ())
      | _, _, _ => (st, Except.error "Missing data")

/-! ### C8 — precondition errors leave the state unchanged -/

/-- **C8.**  Invoking a stage whose direct predecessor's output is absent
fails with the precondition error naming the missing dependency, and the
returned pipeline state is exactly the input state (the guards run before
any write): `stepTrimRim` without a separation fails with
"Run face separation first", `stepComputeVolumes` without deviation-analysis
results fails with "Run deviation analysis first", and with results present
but a supporting field missing it fails with "Missing data". -/
theorem pipeline_precondition_errors (st : PipelineState) (rimPercent : ℚ)
    (thresholdMicrons density : ℝ) :
    (st.separation = none →
      stepTrimRim st rimPercent =
        (st, Except.error "Run face separation first")) ∧
    (st.results = none →
      stepComputeVolumes st thresholdMicrons density =
        (st, Except.error "Run deviation analysis first")) ∧
    (st.results ≠ none →
      (st.workingMesh = none ∨ st.sphereFit = none ∨ st.vertexDeviations = none) →
      stepComputeVolumes st thresholdMicrons density =
        (st, Except.error "Missing data")) := by
  refine ⟨?_, ?_, ?_⟩
  · intro h
    rw [stepTrimRim, h]
  · intro h
    rw [stepComputeVolumes, h]
  · intro h hmiss
    cases hres : st.results with
    | none => exact absurd hres h
    | some r =>
        rw [stepComputeVolumes, hres]
        rcases hmiss with hm | hm | hm
        · rw [hm]
        · rw [hm]
          cases st.workingMesh <;> rfl
        · rw [hm]
          cases st.workingMesh <;> cases st.sphereFit <;> rfl

/-- Concrete (empty) deviation-analysis result record. -/
def pipelineResMissing : AnalysisResults :=
  { sphereFit := { center := (0, 0, 0), radius := 0, rmsError := 0,
                   maxError := 0, residuals := [] },
    geodesicCount := 0, totalAnomalyPoints := 0, bumpClusters := [],
    dipClusters := [], primaryWearZone := none, totalBumpVolume := 0,
    totalDipVolume := 0, totalWearVolume := 0, wearVector := none,
    vertexCount := 0, faceCount := 0 }

/-- Concrete state with deviation-analysis results present but no working
mesh, no sphere fit and no deviations. -/
def pipelineStMissing : PipelineState :=
  { pipelineInitState with results := some pipelineResMissing }

/-- Witness instantiating `pipeline_precondition_errors` on the initial
state (both predecessors absent) and on `pipelineStMissing` (results
present, supporting fields absent). -/
theorem pipeline_precondition_errors_witness :
    stepTrimRim pipelineInitState 5 =
      (pipelineInitState, Except.error "Run face separation first") ∧
    stepComputeVolumes pipelineInitState 1 1 =
      (pipelineInitState, Except.error "Run deviation analysis first") ∧
    stepComputeVolumes pipelineStMissing 1 1 =
      (pipelineStMissing, Except.error "Missing data") := by
  refine ⟨(pipeline_precondition_errors pipelineInitState 5 1 1).1 rfl,
    (pipeline_precondition_errors pipelineInitState 5 1 1).2.1 rfl,
    (pipeline_precondition_errors pipelineStMissing 5 1 1).2.2 ?_ (Or.inl rfl)⟩
  intro h
  have h0 : pipelineStMissing.results = some pipelineResMissing := rfl
  rw [h0] at h
  exact Option.noConfusion h

end GeoWear
